import Mathlib

/-!
# Verification of PyStatParser's stats pipeline

A shallow embedding of `src/stats/extractor.py`, `src/stats/withdelta.py` and
`src/stats/output_module.py`, together with theorems settling the given claims.

Modelling conventions:
* Python values are the inductive `PyVal`; Python `None` is `PyVal.vnone`.
* Python floats are `PyFloat`: an exact rational, `inf`, `-inf` or `nan`
  (rounding of finite float arithmetic is not modelled; no claim depends on it).
* A `timedelta` is its total-seconds value as a rational, rounded to
  microsecond resolution by the constructor, as CPython stores it.
* Python dicts are association lists with first-match lookup; insertion-order
  iteration (Python 2 dict order is arbitrary; no claim depends on it).
* Raised exceptions are `Except PyExc`.
-/

/-- The exceptions the modelled code can raise. -/
inductive PyExc where
  | assertionError
  | indexError
  | valueError
  | typeError
  | overflowError
  deriving DecidableEq, Repr

/-- A Python float: exact finite rational, infinities, or NaN. -/
inductive PyFloat where
  | finite (q : ℚ)
  | inf
  | negInf
  | nan
  deriving DecidableEq, Repr

namespace PyFloat

/-- Python `==` on floats: NaN is unequal to everything, including itself. -/
def feq : PyFloat → PyFloat → Bool
  | finite a, finite b => a == b
  | inf, inf => true
  | negInf, negInf => true
  | _, _ => false

/-- Python `<` on floats: any comparison involving NaN is false. -/
def flt : PyFloat → PyFloat → Bool
  | finite a, finite b => a < b
  | finite _, inf => true
  | negInf, finite _ => true
  | negInf, inf => true
  | _, _ => false

/-- Python `<=` on floats. -/
def fle (a b : PyFloat) : Bool := flt a b || feq a b

/-- Python `abs` on floats. -/
def fabs : PyFloat → PyFloat
  | finite a => finite |a|
  | inf => inf
  | negInf => inf
  | nan => nan

/-- Float addition (finite arithmetic exact; IEEE rules for specials). -/
def fadd : PyFloat → PyFloat → PyFloat
  | nan, _ => nan
  | _, nan => nan
  | inf, negInf => nan
  | negInf, inf => nan
  | inf, _ => inf
  | _, inf => inf
  | negInf, _ => negInf
  | _, negInf => negInf
  | finite a, finite b => finite (a + b)

/-- Float subtraction (finite arithmetic exact; IEEE rules for specials). -/
def fsub : PyFloat → PyFloat → PyFloat
  | nan, _ => nan
  | _, nan => nan
  | inf, inf => nan
  | negInf, negInf => nan
  | inf, _ => inf
  | negInf, _ => negInf
  | finite _, inf => negInf
  | finite _, negInf => inf
  | finite a, finite b => finite (a - b)

/-- Float division.  Only ever used with a nonzero divisor in the modelled
code; division by a zero float is mapped to NaN here (CPython would raise,
but no modelled call site can reach that case). -/
def fdiv : PyFloat → PyFloat → PyFloat
  | nan, _ => nan
  | _, nan => nan
  | inf, inf => nan
  | inf, negInf => nan
  | negInf, inf => nan
  | negInf, negInf => nan
  | inf, finite b => if b < 0 then negInf else inf
  | negInf, finite b => if b < 0 then inf else negInf
  | finite _, inf => finite 0
  | finite _, negInf => finite 0
  | finite a, finite b => if b = 0 then nan else finite (a / b)

end PyFloat

/-- Truncation of a rational toward zero (Python `int(float)`). -/
def ratTrunc (q : ℚ) : ℤ := if q < 0 then -⌊-q⌋ else ⌊q⌋

/-- Round a rational to microsecond resolution, half to even: the rounding the
CPython `timedelta` constructor applies to fractional-second inputs. -/
def roundMicro (q : ℚ) : ℚ :=
  let t : ℚ := q * 1000000
  let f : ℤ := ⌊t⌋
  let frac : ℚ := t - f
  let r : ℤ :=
    if frac > 1/2 then f + 1
    else if frac < 1/2 then f
    else if f % 2 = 0 then f else f + 1
  (r : ℚ) / 1000000

/-- A Python value as seen by this pipeline: `None`, `int`, `float`, `str`,
`timedelta` (by its total seconds), `list`, `tuple`, or a `withdelta` wrapper
(`value`, `delta`). -/
inductive PyVal where
  | vnone
  | vint (n : ℤ)
  | vfloat (f : PyFloat)
  | vstr (s : String)
  | vtd (seconds : ℚ)
  | vlist (xs : List PyVal)
  | vtuple (xs : List PyVal)
  | vbox (value : PyVal) (delta : PyVal)
  deriving Inhabited

open PyVal PyFloat

/-- `x is None` (an identity check in Python). -/
def isNone : PyVal → Bool
  | vnone => true
  | _ => false

/-- The Python runtime type of a value (`type(x)`). -/
inductive PyType where
  | noneT | intT | floatT | strT | tdT | listT | tupleT | boxT
  deriving DecidableEq, Repr

/-- `type(x)` for the modelled values. -/
def pyTypeOf : PyVal → PyType
  | vnone => .noneT
  | vint _ => .intT
  | vfloat _ => .floatT
  | vstr _ => .strT
  | vtd _ => .tdT
  | vlist _ => .listT
  | vtuple _ => .tupleT
  | vbox _ _ => .boxT

mutual

/-- Python `==` between values.  `int` and `float` compare numerically across
the two types; lists and tuples compare elementwise; a `withdelta` has no
`__eq__`, so distinct wrapper objects compare unequal (object identity is not
modelled). -/
def pyEq : PyVal → PyVal → Bool
  | vnone, vnone => true
  | vint a, vint b => a == b
  | vint a, vfloat f => PyFloat.feq (PyFloat.finite a) f
  | vfloat f, vint a => PyFloat.feq f (PyFloat.finite a)
  | vfloat f, vfloat g => PyFloat.feq f g
  | vstr a, vstr b => a == b
  | vtd a, vtd b => a == b
  | vlist a, vlist b => pyEqList a b
  | vtuple a, vtuple b => pyEqList a b
  | _, _ => false

/-- Elementwise Python `==` on sequences. -/
def pyEqList : List PyVal → List PyVal → Bool
  | [], [] => true
  | a :: as, b :: bs => pyEq a b && pyEqList as bs
  | _, _ => false

end

mutual

/-- Whether a value is hashable (usable as a set element): lists are not,
tuples are hashable iff their components are, everything else here is. -/
def pyHashable : PyVal → Bool
  | vlist _ => false
  | vtuple xs => pyHashableList xs
  | _ => true

/-- All elements hashable. -/
def pyHashableList : List PyVal → Bool
  | [] => true
  | a :: as => pyHashable a && pyHashableList as

end

/-- `withdelta.val_of`: unwrap one `withdelta` layer, identity otherwise
(`src/stats/withdelta.py`). -/
def val_of : PyVal → PyVal
  | vbox v _ => v
  | x => x

/-- Python `+` for the value types the pipeline adds (`None` result means the
operand types do not support `+`, i.e. a `TypeError`). -/
def pyAdd : PyVal → PyVal → Option PyVal
  | vint a, vint b => some (vint (a + b))
  | vint a, vfloat f => some (vfloat (PyFloat.fadd (PyFloat.finite a) f))
  | vfloat f, vint a => some (vfloat (PyFloat.fadd f (PyFloat.finite a)))
  | vfloat f, vfloat g => some (vfloat (PyFloat.fadd f g))
  | vtd a, vtd b => some (vtd (a + b))
  | vstr a, vstr b => some (vstr (a ++ b))
  | vlist a, vlist b => some (vlist (a ++ b))
  | vtuple a, vtuple b => some (vtuple (a ++ b))
  | _, _ => none

/-! ## Extraction engine (`ExtractorBase`, `src/stats/extractor.py` lines 11-73) -/

/-- The four match-resolution policies of `ExtractorBase`. -/
inductive Policy where
  | keepLast
  | keepFirst
  | sum
  | append
  deriving DecidableEq, Repr

/-- The mutable state of an `ExtractorBase`: its current `value` (`none` =
Python `None`) and `num_of_matches`. -/
structure ExtState where
  value : Option PyVal
  num_of_matches : ℕ
  deriving Inhabited

/-- `ExtractorBase.__init__`: `num_of_matches = 0`, `value = None`. -/
def ExtState.init : ExtState := ⟨none, 0⟩

/-- `ExtractorBase.process_line`, given the result `candidate` of
`extract_value_from_line` for the line.  `none` as result models an exception
escaping (a `TypeError` from `+=` under `POLICY_SUM` on unsupported types). -/
def process_line (policy : Policy) (s : ExtState) (candidate : Option PyVal) :
    Option ExtState :=
  match candidate with
  | none => some s
  | some c =>
    let n := s.num_of_matches + 1
    match s.value with
    | none =>
      some ⟨some (if policy = .append then vlist [c] else c), n⟩
    | some v =>
      match policy with
      | .keepFirst => some ⟨some v, n⟩
      | .keepLast => some ⟨some c, n⟩
      | .sum => (pyAdd v c).map (fun w => ⟨some w, n⟩)
      | .append => (pyAdd v (vlist [c])).map (fun w => ⟨some w, n⟩)

/-- Run `process_line` over the per-line extraction results of a whole scan. -/
def processLines (policy : Policy) (s : ExtState) (lines : List (Option PyVal)) :
    Option ExtState :=
  List.foldlM (process_line policy) s lines

/-! ## Value-converting extractors (`src/stats/extractor.py` lines 97-172)

The typed conversions call the Python builtins `int()` and `float()`; these
are modelled exactly on well-formed input (finite float literals are read as
exact rationals). -/

/-- Numeric value of a list of decimal digit characters. -/
def digitsToNat (cs : List Char) : ℕ :=
  cs.foldl (fun acc c => acc * 10 + (c.toNat - '0'.toNat)) 0

/-- Strip leading and trailing whitespace (Python `str.strip()`, as applied
by `int()` and `float()`). -/
def stripChars (cs : List Char) : List Char :=
  ((cs.dropWhile Char.isWhitespace).reverse.dropWhile Char.isWhitespace).reverse

/-- Python `int(str)`: optional surrounding whitespace, an optional sign, then
one or more decimal digits. -/
def pyIntParse (s : String) : Option ℤ :=
  let cs := stripChars s.data
  let (neg, cs) :=
    match cs with
    | '-' :: rest => (true, rest)
    | '+' :: rest => (false, rest)
    | _ => (false, cs)
  if cs ≠ [] ∧ cs.all Char.isDigit then
    some (if neg then -(digitsToNat cs : ℤ) else (digitsToNat cs : ℤ))
  else none

/-- Mantissa of a float literal: `digits [. digits]` with at least one digit;
returns the value and the unconsumed rest. -/
def parseMantissa (cs : List Char) : Option (ℚ × List Char) :=
  let ip := cs.takeWhile Char.isDigit
  let rest := cs.dropWhile Char.isDigit
  match rest with
  | '.' :: rest2 =>
    let fp := rest2.takeWhile Char.isDigit
    let rest3 := rest2.dropWhile Char.isDigit
    if ip = [] ∧ fp = [] then none
    else some ((digitsToNat ip : ℚ) + (digitsToNat fp : ℚ) / (10 : ℚ) ^ fp.length, rest3)
  | _ => if ip = [] then none else some ((digitsToNat ip : ℚ), rest)

/-- Optional exponent part `(e|E)[sign]digits`; the input must be fully
consumed. -/
def parseExponent (q : ℚ) (cs : List Char) : Option ℚ :=
  match cs with
  | [] => some q
  | e :: rest =>
    if e = 'e' ∨ e = 'E' then
      let (eneg, ds) :=
        match rest with
        | '-' :: ds => (true, ds)
        | '+' :: ds => (false, ds)
        | _ => (false, rest)
      if ds ≠ [] ∧ ds.all Char.isDigit then
        some (if eneg then q / (10 : ℚ) ^ digitsToNat ds else q * (10 : ℚ) ^ digitsToNat ds)
      else none
    else none

/-- Python `float(str)` on a raw character list: whitespace-stripped,
case-insensitive `inf`, `infinity` and `nan`, or a decimal literal with
optional sign and exponent. -/
def pyFloatParseChars (cs0 : List Char) : Option PyFloat :=
  let cs := (stripChars cs0).map Char.toLower
  let (neg, cs) :=
    match cs with
    | '-' :: rest => (true, rest)
    | '+' :: rest => (false, rest)
    | _ => (false, cs)
  if cs = "inf".toList ∨ cs = "infinity".toList then
    some (if neg then PyFloat.negInf else PyFloat.inf)
  else if cs = "nan".toList then
    some PyFloat.nan
  else
    match parseMantissa cs with
    | none => none
    | some (q, rest) =>
      match parseExponent q rest with
      | none => none
      | some q => some (PyFloat.finite (if neg then -q else q))

/-- Python `float(str)`. -/
def pyFloatParse (s : String) : Option PyFloat :=
  pyFloatParseChars s.data

/-- `IntConverterExtractor.convert_raw_value`: `int(raw)` with a bare
`except` returning `None`; never raises. -/
def intConvert (raw : String) : Except PyExc PyVal :=
  .ok (match pyIntParse raw with
       | some n => vint n
       | none => vnone)

/-- `FloatConverterExtractor.convert_raw_value`: `float(raw)` with a bare
`except` returning `None`; never raises. -/
def floatConvert (raw : String) : Except PyExc PyVal :=
  .ok (match pyFloatParse raw with
       | some f => vfloat f
       | none => vnone)

/-- Python `str.split(':')`: never empty, `""` splits to `[""]`. -/
def splitOnColon (cs : List Char) : List (List Char) :=
  cs.foldr
    (fun c acc =>
      if c = ':' then [] :: acc
      else
        match acc with
        | a :: rest => (c :: a) :: rest
        | [] => [[c]])
    [[]]

/-- `TimeConverterExtractor.convert_raw_value`: split on `:`, more than four
pieces is a parse failure (`None`), a non-float piece is a parse failure
(`None`); otherwise the pieces are days:hours:minutes:seconds of a
`timedelta`.  A non-finite parsed piece makes the `timedelta` constructor
raise (`OverflowError` for infinities, `ValueError` for NaN), which this
method does not catch. -/
def timeConvert (raw : String) : Except PyExc PyVal :=
  let pieces := splitOnColon raw.data
  if pieces.length > 4 then .ok vnone
  else
    match pieces.mapM pyFloatParseChars with
    | none => .ok vnone
    | some fs =>
      let fs := List.replicate (4 - fs.length) (PyFloat.finite 0) ++ fs
      match fs with
      | [PyFloat.finite d, PyFloat.finite h, PyFloat.finite m, PyFloat.finite sec] =>
        .ok (vtd (roundMicro (d * 86400 + h * 3600 + m * 60 + sec)))
      | _ =>
        if fs.any (fun f => f = PyFloat.nan) then .error .valueError
        else .error .overflowError

/-- `MemoryConverterExtractor.convert_raw_value`: lower-case the string, strip
a trailing `b`, read an optional `k`/`m`/`g` decimal scale factor, then
`int(float(raw) * factor)`.  No exception is caught: indexing an empty string
raises `IndexError`, a non-float remainder raises `ValueError`, a non-finite
float raises at the `int()` conversion. -/
def memoryConvert (raw : String) : Except PyExc PyVal :=
  let cs := raw.toList.map Char.toLower
  match cs.getLast? with
  | none => .error .indexError
  | some c =>
    let cs := if c = 'b' then cs.dropLast else cs
    match cs.getLast? with
    | none => .error .indexError
    | some c2 =>
      let factor : ℚ :=
        if c2 = 'k' then 1000 else if c2 = 'm' then 1000000
        else if c2 = 'g' then 1000000000 else 1
      let cs := if c2 = 'k' ∨ c2 = 'm' ∨ c2 = 'g' then cs.dropLast else cs
      match pyFloatParseChars cs with
      | none => .error .valueError
      | some (PyFloat.finite q) => .ok (vint (ratTrunc (q * factor)))
      | some PyFloat.nan => .error .valueError
      | some _ => .error .overflowError

/-! ## Records, dicts, and grouping (`StatsExtractorBase`, lines 174-358) -/

/-- A Python dict with string keys, as an insertion-ordered association list;
lookup returns the first match (keys are unique in any dict the code builds). -/
def Record := List (String × PyVal)

instance : Inhabited Record := ⟨([] : List (String × PyVal))⟩

/-- Dict lookup, `d[k]` / `k in d`. -/
def Record.lookup (r : Record) (k : String) : Option PyVal :=
  List.lookup k r

/-- `k in d`. -/
def Record.hasKey (r : Record) (k : String) : Bool :=
  (r.lookup k).isSome

/-- Dict assignment `d[k] = v`: update in place if present, else append. -/
def dictSet {α : Type} (r : List (String × α)) (k : String) (v : α) :
    List (String × α) :=
  match r with
  | [] => [(k, v)]
  | (k0, v0) :: rest =>
    if k0 = k then (k0, v) :: rest else (k0, v0) :: dictSet rest k v

/-- A scanned `StatsExtractorBase` instance, reduced to what `as_dict` reads:
its `extracted_attributes` key list and the attribute valuation that
`__getattr__` provides for each of those keys. -/
structure StatsExtractor where
  extracted_attributes : List String
  attr : String → PyVal

/-- `StatsExtractorBase.as_dict` (lines 289-296): a dict with the extracted
attributes as keys. -/
def StatsExtractor.as_dict (e : StatsExtractor) : Record :=
  e.extracted_attributes.foldl (fun r k => dictSet r k (e.attr k)) []

/-- An element of the `runs` list passed to `group_multiple_runs`: a `None`
placeholder for a missing file, a scanned extractor instance, or already a
dict. -/
inductive RunInput where
  | noneInput
  | extractorInput (e : StatsExtractor)
  | dictInput (r : Record)

/-- The first loop of `group_multiple_runs` (lines 341-346): the in-place
normalisation `runs[i] = ...` of each entry of the caller's list. -/
def normalizeRun : RunInput → Record
  | .noneInput => ([] : List (String × PyVal))
  | .extractorInput e => e.as_dict
  | .dictInput r => r

/-- The union of the keys of all runs (`all_keys`), in first-seen order
(a Python `set`; iteration order does not affect any modelled observation). -/
def allKeys (rs : List Record) : List String :=
  (rs.flatMap (fun r => r.map Prod.fst)).foldl
    (fun acc k => if k ∈ acc then acc else acc ++ [k]) []

/-- Insertion into a Python set: kept only if no member compares `==` to it. -/
def setInsert (xs : List PyVal) (v : PyVal) : List PyVal :=
  if xs.any (fun x => pyEq x v) then xs else xs ++ [v]

/-- `set(vs)`: deduplicate by Python `==`, keeping first representatives. -/
def pySet (vs : List PyVal) : List PyVal :=
  vs.foldl setInsert []

/-- The values the runs that define `key` hold for it, in run order
(`[run[key] for run in runs if key in run]`). -/
def gkValues (key : String) (rs : List Record) : List PyVal :=
  (rs.filter (fun r => r.hasKey key)).filterMap (fun r => r.lookup key)

/-- Lines 352-354: build the set of group-by values and assert it is a
singleton.  Building the set raises `TypeError` on an unhashable value; the
`assert` raises `AssertionError` unless exactly one distinct value remains. -/
def groupKeyValue (key : String) (rs : List Record) : Except PyExc PyVal :=
  let vals := gkValues key rs
  if vals.any (fun v => !pyHashable v) then .error .typeError
  else
    match pySet vals with
    | [v] => .ok v
    | _ => .error .assertionError

/-- The per-run column for an ordinary key (line 356):
`[None if key not in run else run[key] for run in runs]`. -/
def runColumn (key : String) (rs : List Record) : PyVal :=
  vlist (rs.map (fun r => (r.lookup key).getD vnone))

/-- The second loop of `group_multiple_runs` (lines 349-356), iterating the
key set. -/
def buildRetval (group_by_key : Option String) (rs : List Record) :
    List String → Except PyExc Record
  | [] => .ok ([] : List (String × PyVal))
  | k :: ks =>
    if some k = group_by_key then
      match groupKeyValue k rs with
      | .error e => .error e
      | .ok v => (buildRetval group_by_key rs ks).map (fun r => (k, v) :: r)
    else
      (buildRetval group_by_key rs ks).map (fun r => (k, runColumn k rs) :: r)

/-- `StatsExtractorBase.group_multiple_runs` (lines 327-358).  The first
component is the state of the caller's `runs` list after the call (the first
loop rebinds every entry in place); the second is the returned grouped dict,
or the exception raised. -/
def group_multiple_runs (group_by_key : Option String) (runs : List RunInput) :
    List Record × Except PyExc Record :=
  let rs := runs.map normalizeRun
  (rs, buildRetval group_by_key rs (allKeys rs))

/-! ## Pairwise deltas (`get_delta_percent`, lines 248-287) -/

/-- The per-type validity predicate `is_valid` of `get_delta_percent`. -/
def deltaValid : PyVal → Bool
  | vtd q => decide (q ≥ 0)
  | vint n => decide (n ≥ 0)
  | vstr _ => true
  | vfloat f => PyFloat.feq f f
  | _ => false

/-- The per-type numeric coercion `to_float` of `get_delta_percent`. -/
def deltaToFloat : PyVal → PyFloat
  | vtd q => PyFloat.finite q
  | vint n => PyFloat.finite n
  | vfloat f => f
  | _ => PyFloat.finite 0

/-- `StatsExtractorBase.get_delta_percent` (lines 248-287): the pairwise
delta `(val2 - val1) / val1`, dispatching on the common runtime type. -/
def get_delta_percent (val1 val2 : PyVal) : PyVal :=
  if isNone val1 ∧ isNone val2 then vnone
  else if pyTypeOf val1 ≠ pyTypeOf val2 then vnone
  else if deltaValid val1 ∧ deltaValid val2 then
    if pyEq val1 val2 then vfloat (PyFloat.finite 0)
    else if PyFloat.feq (PyFloat.fabs (deltaToFloat val1)) (PyFloat.finite 0) then
      if PyFloat.flt (PyFloat.finite 0) (deltaToFloat val2)
      then vfloat PyFloat.inf else vfloat PyFloat.negInf
    else
      vfloat (PyFloat.fdiv (PyFloat.fsub (deltaToFloat val2) (deltaToFloat val1))
                           (deltaToFloat val1))
  else vfloat PyFloat.nan

/-! ## Delta annotation (`add_deltas_to_grouped_runs`, lines 367-391) -/

/-- The transformation `add_deltas_to_grouped_runs` applies to one dict
entry: list values get every element past the first wrapped in a `withdelta`
carrying the delta against the first element; other values are untouched.
Indexing `[0]` of an empty list raises `IndexError`. -/
def addDeltasEntry : PyVal → Except PyExc PyVal
  | vlist [] => .error .indexError
  | vlist (ref :: rest) =>
    .ok (vlist (ref :: rest.map (fun item => vbox item (get_delta_percent ref item))))
  | v => .ok v

/-- `add_deltas_to_grouped_runs` restricted to a single group dict (the
method applies `addDeltasEntry` to every entry in iteration order, stopping
at the first raised exception). -/
def add_deltas_group : Record → Except PyExc Record
  | [] => .ok ([] : List (String × PyVal))
  | kv :: rest => do
    let w ← addDeltasEntry kv.2
    let r ← add_deltas_group rest
    pure ((kv.1, w) :: r)

/-! ## Footer statistics (`compute_footer_from_grouped_runs`, lines 393-463) -/

/-- The default `allowed_types` list `[timedelta, float, int]` of the
expansion actions. -/
def allowedNum : PyType → Bool
  | .tdT => true
  | .floatT => true
  | .intT => true
  | _ => false

theorem sizeOf_val_of (x : PyVal) : sizeOf (val_of x) ≤ sizeOf x := by
  cases x <;> simp [val_of]
  omega

mutual

/-- The non-sequence cases of `ExpandBinaryAction.__call__`: a runtime-type
mismatch yields `None`, a leaf outside `allowed_types` yields `None`, and an
allowed leaf pair is combined by the action. -/
def binaryLeaf (act : PyVal → PyVal → PyVal) (l r : PyVal) : PyVal :=
  if pyTypeOf l ≠ pyTypeOf r then vnone
  else if allowedNum (pyTypeOf l) then act l r else vnone

/-- `ExpandBinaryAction.__call__` after the entry `val_of` unwrapping: tuples
and lists recurse elementwise over the length of the shorter side (the code
swaps so the second list is the shorter and iterates its indices); any other
pair is a `binaryLeaf`. -/
def expandBinaryCore (act : PyVal → PyVal → PyVal) (l r : PyVal) : PyVal :=
  match l, r with
  | vtuple ls, vtuple rs =>
    vtuple (if ls.length < rs.length then expandBL act rs ls else expandBL act ls rs)
  | vlist ls, vlist rs =>
    vlist (if ls.length < rs.length then expandBL act rs ls else expandBL act ls rs)
  | vnone, r => binaryLeaf act vnone r
  | vint a, r => binaryLeaf act (vint a) r
  | vfloat f, r => binaryLeaf act (vfloat f) r
  | vstr s, r => binaryLeaf act (vstr s) r
  | vtd q, r => binaryLeaf act (vtd q) r
  | vbox v d, r => binaryLeaf act (vbox v d) r
  | vtuple ls, r => binaryLeaf act (vtuple ls) r
  | vlist ls, r => binaryLeaf act (vlist ls) r
termination_by sizeOf l + sizeOf r
decreasing_by
  all_goals simp_wf
  all_goals omega

/-- `[self(l[i], r[i]) for i in xrange(0, len(r))]` with `r` the shorter
list: elementwise recursion, each element unwrapped by the entry `val_of`. -/
def expandBL (act : PyVal → PyVal → PyVal) (as bs : List PyVal) : List PyVal :=
  match as, bs with
  | _, [] => []
  | [], _ :: _ => []
  | a :: as, b :: bs =>
    expandBinaryCore act (val_of a) (val_of b) :: expandBL act as bs
termination_by sizeOf as + sizeOf bs
decreasing_by
  all_goals simp_wf
  all_goals try omega
  all_goals (have h1 := sizeOf_val_of a; have h2 := sizeOf_val_of b; omega)

end

/-- `ExpandBinaryAction` with the entry unwrapping `l, r = val_of(l), val_of(r)`. -/
def expandBinary (act : PyVal → PyVal → PyVal) (l r : PyVal) : PyVal :=
  expandBinaryCore act (val_of l) (val_of r)

mutual

/-- The non-sequence cases of `ExpandUnaryAction.__call__`: a leaf outside
`allowed_types` yields `None`, an allowed leaf is transformed by the action. -/
def unaryLeaf (act : PyVal → PyVal) (x : PyVal) : PyVal :=
  if allowedNum (pyTypeOf x) then act x else vnone

/-- `ExpandUnaryAction.__call__` after the entry `val_of` unwrapping. -/
def expandUnaryCore (act : PyVal → PyVal) (x : PyVal) : PyVal :=
  match x with
  | vtuple xs => vtuple (expandUL act xs)
  | vlist xs => vlist (expandUL act xs)
  | vnone => unaryLeaf act vnone
  | vint a => unaryLeaf act (vint a)
  | vfloat f => unaryLeaf act (vfloat f)
  | vstr s => unaryLeaf act (vstr s)
  | vtd q => unaryLeaf act (vtd q)
  | vbox v d => unaryLeaf act (vbox v d)
termination_by sizeOf x
decreasing_by
  all_goals simp_wf

/-- `[self(y) for y in x]`, each element unwrapped by the entry `val_of`. -/
def expandUL (act : PyVal → PyVal) (xs : List PyVal) : List PyVal :=
  match xs with
  | [] => []
  | y :: ys => expandUnaryCore act (val_of y) :: expandUL act ys
termination_by sizeOf xs
decreasing_by
  all_goals simp_wf
  all_goals (have h1 := sizeOf_val_of a; omega)

end

/-- `ExpandUnaryAction` with the entry unwrapping `x = val_of(x)`. -/
def expandUnary (act : PyVal → PyVal) (x : PyVal) : PyVal :=
  expandUnaryCore act (val_of x)

/-- The `custom_sum` action `lambda s, t: s + t`, reaching only same-typed
`timedelta`/`float`/`int` leaves. -/
def sumAct : PyVal → PyVal → PyVal
  | vint a, vint b => vint (a + b)
  | vfloat f, vfloat g => vfloat (PyFloat.fadd f g)
  | vtd a, vtd b => vtd (a + b)
  | _, _ => vnone

/-- The `custom_max` action `lambda s, t: max(s, t)`: Python `max` keeps the
first argument unless the second is strictly greater. -/
def maxAct : PyVal → PyVal → PyVal
  | vint a, vint b => vint (if a < b then b else a)
  | vfloat f, vfloat g => vfloat (if PyFloat.flt f g then g else f)
  | vtd a, vtd b => vtd (if a < b then b else a)
  | _, _ => vnone

/-- `divide_value` (lines 432-438) with `count = len(groups)`: a `timedelta`
divides its total seconds (re-rounded to microseconds by the constructor), an
`int` divides with truncation toward zero, a float divides exactly.  Reached
only for `allowed_types` leaves. -/
def divide_value (count : ℕ) : PyVal → PyVal
  | vtd q => vtd (roundMicro (q / (count : ℚ)))
  | vint n => vint (ratTrunc ((n : ℚ) / (count : ℚ)))
  | vfloat f => vfloat (PyFloat.fdiv f (PyFloat.finite count))
  | _ => vnone

/-- The accumulation loop of `compute_footer_from_grouped_runs` (lines
447-456): running elementwise sums and maxima per field. -/
def footerAccum (groups : List Record) : Record × Record :=
  groups.foldl
    (fun sm group =>
      group.foldl
        (fun sm kv =>
          let sums :=
            match Record.lookup sm.1 kv.1 with
            | none => dictSet sm.1 kv.1 kv.2
            | some prev => dictSet sm.1 kv.1 (expandBinary sumAct prev kv.2)
          let maxes :=
            match Record.lookup sm.2 kv.1 with
            | none => dictSet sm.2 kv.1 kv.2
            | some prev => dictSet sm.2 kv.1 (expandBinary maxAct prev kv.2)
          (sums, maxes))
        sm)
    (([] : List (String × PyVal)), ([] : List (String × PyVal)))

/-- The result of `compute_footer_from_grouped_runs`: the dict
`{'max': maxes, 'avg': sums}`. -/
structure Footer where
  max : Record
  avg : Record

/-- `StatsExtractorBase.compute_footer_from_grouped_runs` (lines 393-463). -/
def compute_footer (groups : List Record) (with_delta : Bool) :
    Except PyExc Footer :=
  let (sums0, maxes) := footerAccum groups
  let sums := sums0.map (fun kv => (kv.1, expandUnary (divide_value groups.length) kv.2))
  if with_delta then do
    let sums' ← add_deltas_group sums
    let maxes' ← add_deltas_group maxes
    pure ⟨maxes', sums'⟩
  else pure ⟨maxes, sums⟩

/-! ## Table formatting (`src/stats/output_module.py`) -/

/-- A column-descriptor attribute value: the descriptors hold booleans
(`toggle_off`, `toggle_delta_off`, `stand_out`, `bigger_is_better`), `None`,
or a formatter function (`PyVal` to string-or-`None`). -/
inductive AttrVal where
  | b (v : Bool)
  | noneA
  | fmtr (f : PyVal → Option String)

/-- Python truthiness of an attribute value. -/
def attrTruthy : AttrVal → Bool
  | .b v => v
  | .noneA => false
  | .fmtr _ => true

/-- The `column_descriptors` dict: column name to descriptor dict. -/
def Descs := List (String × List (String × AttrVal))

instance : Inhabited Descs := ⟨([] : List (String × List (String × AttrVal)))⟩

/-- `HTMLSheetFormatter.get_default_column_descriptor` (lines 552-560, merged
with the `TableFilteredBase` base, lines 428-433). -/
def defaultColumnDescriptor : List (String × AttrVal) :=
  [("toggle_off", .b false), ("toggle_delta_off", .b false),
   ("stand_out", .b false), ("formatter", .noneA), ("bigger_is_better", .b false)]

/-- `TableFilteredBase.get_column_attribute` (lines 451-463). -/
def get_column_attribute (descs : Descs) (col attrib : String) (dflt : AttrVal) :
    AttrVal :=
  let d :=
    match List.lookup col descs with
    | some d => d
    | none => defaultColumnDescriptor
  match List.lookup attrib d with
  | none => dflt
  | some v => v

/-- `TableFilteredBase.set_column_attribute` (lines 443-446). -/
def set_column_attribute (descs : Descs) (col attrib : String) (v : AttrVal) :
    Descs :=
  match List.lookup col descs with
  | none => List.append descs [(col, [(attrib, v)])]
  | some d => dictSet descs col (dictSet d attrib v)

/-- `runs_in_cell` for one dict entry (`_get_extra_info`, line 397):
the length for a list value, `-1` otherwise. -/
def ricOf : PyVal → ℤ
  | vlist xs => xs.length
  | _ => -1

/-- The `_col_has_delta` computation of `TableFormatterBase._get_extra_info`
(lines 389-396) for one column, over all body and footer groups: true iff
some group holds the key as a list containing a `withdelta` instance. -/
def colHasDeltaDefault (gs : List Record) (k : String) : Bool :=
  gs.any (fun g =>
    match Record.lookup g k with
    | some (vlist xs) => xs.any (fun v => pyTypeOf v = PyType.boxT)
    | _ => false)

/-- `TableFilteredBase.column_has_delta` (lines 470-473): the per-column
`toggle_delta_off` descriptor forces `False`, otherwise the data-driven
default from `_get_extra_info` applies. -/
def column_has_delta (descs : Descs) (gs : List Record) (k : String) : Bool :=
  if attrTruthy (get_column_attribute descs k "toggle_delta_off" (.b false)) then false
  else colHasDeltaDefault gs k

/-- `_num_of_runs_in_group` for one group (lines 388, 397-400): the maximum
`runs_in_cell` over its entries, starting from `-1`. -/
def numRunsInGroup (g : Record) : ℤ :=
  g.foldl (fun m kv => if ricOf kv.2 > m then ricOf kv.2 else m) (-1)

/-- `TableFormatterBase.__init__` (lines 402-408): the body is the grouped
runs, the footer is the computed `max`/`avg` pair.  Iteration order of the
two-key footer dict is modelled as `max` then `avg`. -/
def tableInit (grouped_runs : List Record) (footer_with_delta : Bool) :
    Except PyExc (List Record × List Record) := do
  let f ← compute_footer grouped_runs footer_with_delta
  pure (grouped_runs, [f.max, f.avg])

/-- The table location (section, indices, and cell data) threaded through the
walk (`TableFormatterBase.Location`). -/
inductive LocTable where
  | hdr | body | footer
  deriving DecidableEq, Repr

/-- The fields of the `Location` object read by the HTML value-cell hooks. -/
structure Loc where
  loc_in_table : Option LocTable := none
  n_group : ℤ := -1
  n_col : ℤ := -1
  col_name : String := ""
  n_run : ℤ := -1
  num_of_runs_in_cell : ℤ := -1
  num_of_runs_in_group : ℤ := -1
  value : PyVal := vnone
  delta : PyVal := vnone

/-- Lines 339-344 of the walk: fetch the cell value (indexing the per-run
list when the cell has runs), read its `withdelta` delta if wrapped, then
unwrap. -/
def cellValDelta (v : PyVal) : PyVal × PyVal :=
  (val_of v,
   match v with
   | vbox _ d => d
   | _ => vnone)

/-- Lines 331-353 of `TableFormatterBase.run`: the `Location` passed to the
value hooks for column `k` of body group `g` at run row `n_run`.  Indexing a
per-run list shorter than the row index raises `IndexError`. -/
def bodyCellLoc (g : Record) (k : String) (n_group : ℤ) (n_run : ℕ) (n_col : ℤ)
    (runsInGroup : ℤ) : Except PyExc Loc :=
  let base : Loc :=
    { loc_in_table := some .body, n_group := n_group, n_col := n_col,
      col_name := k, n_run := (n_run : ℤ), num_of_runs_in_group := runsInGroup }
  match Record.lookup g k with
  | none => .ok base
  | some cell =>
    let ric := ricOf cell
    if ric > 0 then
      match cell with
      | vlist xs =>
        match xs.get? n_run with
        | none => .error .indexError
        | some v =>
          .ok { base with num_of_runs_in_cell := ric,
                          value := (cellValDelta v).1, delta := (cellValDelta v).2 }
      | _ => .error .typeError
    else
      .ok { base with num_of_runs_in_cell := ric,
                      value := (cellValDelta cell).1, delta := (cellValDelta cell).2 }

/-- The HTML formatter context: its column descriptors, all body and footer
groups (for the data-driven delta default), and the footer row labels. -/
structure HFmt where
  descs : Descs
  allGroups : List Record
  footer_names : List String

/-- `self.column_has_delta(col)` as seen by `HTMLSheetFormatter`. -/
def HFmt.chd (hf : HFmt) (k : String) : Bool :=
  column_has_delta hf.descs hf.allGroups k

/-- `HTMLSheetFormatter.cell_is_th` (lines 663-667). -/
def cell_is_th (loc : Loc) : Bool :=
  loc.loc_in_table = some .hdr ∨ (loc.num_of_runs_in_cell ≤ 0 ∧ loc.n_col = 0)

/-- `' '.join` / `' '.join`-style joining (Python `str.join`). -/
def strJoin (sep : String) : List String → String
  | [] => ""
  | [x] => x
  | x :: xs => x ++ sep ++ strJoin sep xs

/-- `quick_html_escape` (line 10-15): escape `&`, `<`, `>` and quotes.
Non-ASCII charref replacement is not modelled (all rendered text in the
claims is ASCII). -/
def htmlEscape (s : String) : String :=
  String.mk (s.data.flatMap (fun c =>
    if c = '&' then "&amp;".data
    else if c = '<' then "&lt;".data
    else if c = '>' then "&gt;".data
    else if c = '"' then "&quot;".data
    else [c]))

/-- `TagBuilder.preprocess` (lines 489-493): fold the class list into the
`class` attribute, or drop a stale `class` attribute. -/
def tagFinalAttributes (attrs : List (String × String)) (classes : List String) :
    List (String × String) :=
  if classes ≠ [] then dictSet attrs "class" (strJoin " " classes)
  else attrs.filter (fun kv => kv.1 ≠ "class")

/-- The opening tag built by `TagBuilder.run` (lines 495-502). -/
def tagOpening (tag_name : String) (fattrs : List (String × String)) : String :=
  "<" ++ tag_name
    ++ (if fattrs = [] then ""
        else " " ++ strJoin " " (fattrs.map (fun kv =>
               kv.1 ++ "=\"" ++ htmlEscape kv.2 ++ "\"")))
    ++ ">"

/-- `HTMLSheetFormatter.get_stand_out_class` (lines 669-696).  The pipeline
only ever stores float or `None` deltas; other delta values (whose Python 2
ordering against floats is type-name based) are mapped to `none`. -/
def get_stand_out_class (descs : Descs) (loc : Loc) : Option String :=
  match loc.delta with
  | vnone => some "muted"
  | vfloat PyFloat.nan => none
  | vfloat f =>
    if attrTruthy (get_column_attribute descs loc.col_name "bigger_is_better" (.b false)) then
      if PyFloat.flt f (PyFloat.finite (-1/20)) then some "danger"
      else if PyFloat.flt f (PyFloat.finite 0) then some "warning"
      else if PyFloat.flt f (PyFloat.finite (1/20)) then some "info"
      else some "success"
    else
      if PyFloat.fle f (PyFloat.finite (-1/20)) then some "success"
      else if PyFloat.fle f (PyFloat.finite 0) then some "info"
      else if PyFloat.fle f (PyFloat.finite (1/20)) then some "warning"
      else some "danger"
  | _ => none

/-- `indent()` (line 875): four spaces per level. -/
def indentStr (n : ℤ) : String :=
  String.mk (List.replicate (4 * n.toNat) ' ')

/-- Python `str(value)` for cell rendering.  The numeric and composite
renderings are approximations of CPython's (no claim depends on the exact
text, only on whether and where a cell is emitted). -/
def pyStr : PyVal → String
  | vnone => "None"
  | vstr s => s
  | vint n => toString n
  | vfloat (PyFloat.finite q) => toString q.num ++ (if q.den = 1 then ".0" else "/" ++ toString q.den)
  | vfloat PyFloat.inf => "inf"
  | vfloat PyFloat.negInf => "-inf"
  | vfloat PyFloat.nan => "nan"
  | vtd q => toString q.num ++ (if q.den = 1 then "" else "/" ++ toString q.den) ++ "s"
  | vlist _ => "[...]"
  | vtuple _ => "(...)"
  | vbox _ _ => "withdelta(...)"

/-- `HTMLSheetFormatter.begin_value` (lines 759-792), returning the emitted
fragment (or `None`) and the updated indent level. -/
def HTML_begin_value (hf : HFmt) (loc : Loc) (ind : ℤ) : Option String × ℤ :=
  let tag := if cell_is_th loc then "th" else "td"
  let classes : List String :=
    if cell_is_th loc then
      if loc.loc_in_table = some .footer then ["text-muted", "text-center"]
      else if loc.loc_in_table = some .hdr then ["text-center"]
      else []
    else ["text-right"]
  let attrs : List (String × String) :=
    if loc.loc_in_table = some LocTable.hdr ∧ hf.chd loc.col_name then
      [("colspan", "2")]
    else []
  if loc.num_of_runs_in_cell ≤ 0 ∧ loc.num_of_runs_in_group > 0 ∧ loc.n_run ≠ 0 then
    (none, ind)
  else
    let attrs :=
      if loc.num_of_runs_in_cell ≤ 0 ∧ loc.num_of_runs_in_group > 0 then
        let attrs := dictSet attrs "rowspan" (toString loc.num_of_runs_in_group)
        if hf.chd loc.col_name then dictSet attrs "colspan" "2" else attrs
      else attrs
    let classes :=
      if attrTruthy (get_column_attribute hf.descs loc.col_name "stand_out" (.b false)) then
        let classes := classes ++ ["stand-out"]
        if loc.loc_in_table ≠ some LocTable.hdr then
          match get_stand_out_class hf.descs loc with
          | some c => if c ≠ "muted" then classes ++ [c] else classes
          | none => classes
        else classes
      else classes
    (some (indentStr ind ++ tagOpening tag (tagFinalAttributes attrs classes)), ind + 1)

/-- `HTMLSheetFormatter.process_value` (lines 799-815). -/
def HTML_process_value (hf : HFmt) (loc : Loc) (ind : ℤ) : Option String :=
  if loc.num_of_runs_in_cell ≤ 0 ∧ loc.num_of_runs_in_group > 0 ∧ loc.n_run > 0 then
    none
  else
    let value := loc.value
    let value :=
      if loc.loc_in_table ≠ some LocTable.hdr then
        match get_column_attribute hf.descs loc.col_name "formatter" .noneA with
        | .fmtr f =>
          match f value with
          | some s => vstr s
          | none => vnone
        | _ => value
      else value
    let value :=
      if loc.loc_in_table = some LocTable.footer ∧ loc.num_of_runs_in_cell ≤ 0 ∧ loc.n_col = 0 then
        vstr ((hf.footer_names.get? loc.n_group.toNat).getD "")
      else value
    some (indentStr ind ++
      (if isNone value then "<span class=\"text-muted\">n/a</span>"
       else htmlEscape (pyStr value)))

/-- `HTMLSheetFormatter.end_value` (lines 794-797). -/
def HTML_end_value (loc : Loc) (ind : ℤ) : Option String × ℤ :=
  if loc.num_of_runs_in_cell ≤ 0 ∧ loc.num_of_runs_in_group > 0 ∧ loc.n_run > 0 then
    (none, ind)
  else
    (some (indentStr (ind - 1) ++ (if cell_is_th loc then "</th>" else "</td>")), ind - 1)

/-- One value cell of the walk: `begin_value`, `process_value`, `end_value`
in sequence, threading the indent. -/
def valueCellWalk (hf : HFmt) (loc : Loc) (ind : ℤ) :
    (Option String × Option String × Option String) × ℤ :=
  let bi := HTML_begin_value hf loc ind
  let p := HTML_process_value hf loc bi.2
  let ei := HTML_end_value loc bi.2
  ((bi.1, p, ei.1), ei.2)

/-- The value-cell emissions for column `k` across all run rows of body group
`g` (the walk iterates `n_run` over `xrange(0, runs_in_group)`; each row
reaches this cell at the same indent level because the emitted tags nest). -/
def walkValueCells (hf : HFmt) (g : Record) (k : String) (n_group n_col : ℤ)
    (ind : ℤ) : Except PyExc (List (Option String × Option String × Option String)) :=
  let runsInGroup := numRunsInGroup g
  (List.range runsInGroup.toNat).mapM (fun r => do
    let loc ← bodyCellLoc g k n_group r n_col runsInGroup
    pure (valueCellWalk hf loc ind).1)

/-! ## Support definitions for the statements -/

/-- The fold of `process_line` over the accepted (non-`None`) candidates
only; `processLines` is proved equal to it below. -/
def acceptedRun (policy : Policy) (s : ExtState) : List PyVal → Option ExtState
  | [] => some s
  | c :: cs => (process_line policy s (some c)).bind (fun s' => acceptedRun policy s' cs)

mutual

/-- Whether a value holds, anywhere inside it, a `withdelta` box whose
`delta` is non-`None` (the property the spec's delta-visibility default is
stated in terms of). -/
def hasLiveDeltaBox : PyVal → Bool
  | vbox v d => !isNone d || hasLiveDeltaBox v
  | vlist xs => hasLiveDeltaBoxList xs
  | vtuple xs => hasLiveDeltaBoxList xs
  | _ => false

/-- Any element with a live-delta box. -/
def hasLiveDeltaBoxList : List PyVal → Bool
  | [] => false
  | x :: xs => hasLiveDeltaBox x || hasLiveDeltaBoxList xs

end

/-! # Theorems -/

/-! ## Shared helper lemmas -/

theorem processLines_eq_acceptedRun (p : Policy) (s : ExtState)
    (lines : List (Option PyVal)) :
    processLines p s lines = acceptedRun p s (lines.filterMap id) := by
  induction lines generalizing s with
  | nil => rfl
  | cons c cs ih =>
    cases c with
    | none =>
      simpa [processLines, List.foldlM, process_line] using ih s
    | some v =>
      simp only [processLines, List.foldlM, List.filterMap, acceptedRun, Option.bind]
      cases h : process_line p s (some v) with
      | none => rfl
      | some s' => simpa [processLines] using ih s'

theorem process_line_some_num (p : Policy) (s s' : ExtState) (c : PyVal)
    (h : process_line p s (some c) = some s') :
    s'.num_of_matches = s.num_of_matches + 1 := by
  cases hv : s.value with
  | none =>
    simp [process_line, hv] at h
    simp [← h]
  | some v =>
    cases p <;> simp [process_line, hv] at h
    case keepLast => simp [← h]
    case keepFirst => simp [← h]
    case sum =>
      cases ha : pyAdd v c with
      | none => simp [ha] at h
      | some w => simp [ha] at h; simp [← h]
    case append =>
      cases ha : pyAdd v (vlist [c]) with
      | none => simp [ha] at h
      | some w => simp [ha] at h; simp [← h]

theorem acceptedRun_num (p : Policy) (cs : List PyVal) (s s' : ExtState)
    (h : acceptedRun p s cs = some s') :
    s'.num_of_matches = s.num_of_matches + cs.length := by
  induction cs generalizing s with
  | nil => simp [acceptedRun] at h; simp [← h]
  | cons c cs ih =>
    simp only [acceptedRun, Option.bind] at h
    cases hp : process_line p s (some c) with
    | none => simp [hp] at h
    | some s1 =>
      rw [hp] at h
      have h1 := process_line_some_num p s s1 c hp
      have h2 := ih s1 h
      simp [h2, h1, List.length_cons]
      omega

/-! ## C4: policy fold semantics -/

/-- C4.  For every scan (modelled by the per-line extraction results): zero
accepted matches leave `value = None` and `num_of_matches = 0`; accepted
matches `[a, b, c]` in line order give `value = a` under KEEP_FIRST, `c`
under KEEP_LAST, `a + b + c` under SUM (when the additions are defined, as
the code assumes), and `[a, b, c]` under APPEND; and `num_of_matches` counts
the accepted matches under every policy. -/
theorem extractor_policy_fold (lines : List (Option PyVal)) :
    (lines.filterMap id = [] → ∀ p : Policy,
      processLines p ExtState.init lines = some ⟨none, 0⟩) ∧
    (∀ a b c : PyVal, lines.filterMap id = [a, b, c] →
      processLines .keepFirst ExtState.init lines = some ⟨some a, 3⟩ ∧
      processLines .keepLast ExtState.init lines = some ⟨some c, 3⟩ ∧
      processLines .append ExtState.init lines = some ⟨some (vlist [a, b, c]), 3⟩ ∧
      (∀ ab abc : PyVal, pyAdd a b = some ab → pyAdd ab c = some abc →
        processLines .sum ExtState.init lines = some ⟨some abc, 3⟩)) ∧
    (∀ p : Policy, ∀ s' : ExtState, processLines p ExtState.init lines = some s' →
      s'.num_of_matches = (lines.filterMap id).length) := by
  refine ⟨?_, ?_, ?_⟩
  · intro h p
    rw [processLines_eq_acceptedRun, h]
    rfl
  · intro a b c h
    refine ⟨?_, ?_, ?_, ?_⟩
    · rw [processLines_eq_acceptedRun, h]
      simp [acceptedRun, process_line, ExtState.init]
    · rw [processLines_eq_acceptedRun, h]
      simp [acceptedRun, process_line, ExtState.init]
    · rw [processLines_eq_acceptedRun, h]
      simp [acceptedRun, process_line, ExtState.init, pyAdd]
    · intro ab abc hab habc
      rw [processLines_eq_acceptedRun, h]
      simp [acceptedRun, process_line, ExtState.init, hab, habc]
  · intro p s' h
    rw [processLines_eq_acceptedRun] at h
    have := acceptedRun_num p (lines.filterMap id) ExtState.init s' h
    simpa [ExtState.init] using this

/-- Witness for C4 at a concrete scan with interleaved non-matching lines. -/
theorem extractor_policy_fold_witness :
    processLines .keepFirst ExtState.init
        [none, some (vint 1), some (vint 2), none, some (vint 3)] = some ⟨some (vint 1), 3⟩ ∧
    processLines .keepLast ExtState.init
        [none, some (vint 1), some (vint 2), none, some (vint 3)] = some ⟨some (vint 3), 3⟩ ∧
    processLines .append ExtState.init
        [none, some (vint 1), some (vint 2), none, some (vint 3)]
        = some ⟨some (vlist [vint 1, vint 2, vint 3]), 3⟩ ∧
    processLines .sum ExtState.init
        [none, some (vint 1), some (vint 2), none, some (vint 3)] = some ⟨some (vint 6), 3⟩ ∧
    processLines .keepLast ExtState.init [none, none] = some ⟨none, 0⟩ := by
  have h := extractor_policy_fold [none, some (vint 1), some (vint 2), none, some (vint 3)]
  have h3 := h.2.1 (vint 1) (vint 2) (vint 3) rfl
  have h0 := extractor_policy_fold [none, none]
  exact ⟨h3.1, h3.2.1, h3.2.2.1,
    h3.2.2.2 (vint 3) (vint 6) rfl rfl,
    h0.1 rfl .keepLast⟩

/-! ## C6: string deltas -/

/-- C6 counterexample.  The claim says `delta(s1, s2)` is `0.0` for every
pair of strings; the code returns `-Infinity` for two unequal strings: both
are "valid", they are not `==`, and `to_float` maps every string to `0.0`,
so the zero-reference branch fires with `to_float(val2) = 0.0 > 0.0` false. -/
theorem strings_delta_counterexample :
    get_delta_percent (vstr "A") (vstr "B") = vfloat PyFloat.negInf ∧
    vfloat PyFloat.negInf ≠ vfloat (PyFloat.finite 0) := by
  constructor
  · rfl
  · simp

/-- C6 amended.  For equal strings the delta is `0.0`; for unequal strings it
is `-Infinity` (not `0.0`). -/
theorem strings_delta_amended (s1 s2 : String) :
    get_delta_percent (vstr s1) (vstr s2) =
      if s1 = s2 then vfloat (PyFloat.finite 0) else vfloat PyFloat.negInf := by
  by_cases h : s1 = s2 <;>
    simp [get_delta_percent, isNone, pyTypeOf, deltaValid, deltaToFloat, pyEq, h,
      PyFloat.feq, PyFloat.fabs, PyFloat.flt]

/-! ## C3: converter parse failures -/

/-- C3.  The integer, float and duration converters swallow a parse failure
and return `None`, but `MemoryConverterExtractor.convert_raw_value` has no
exception handler: the empty string (and the bare suffix `"b"`) raises
`IndexError` at `raw_value[-1]`, and a string with no parsable numeric prefix
raises `ValueError` at `float(raw_value)`. -/
theorem memory_convert_raises :
    memoryConvert "" = .error PyExc.indexError ∧
    memoryConvert "b" = .error PyExc.indexError ∧
    memoryConvert "abc" = .error PyExc.valueError ∧
    memoryConvert "12x3" = .error PyExc.valueError ∧
    intConvert "abc" = .ok vnone ∧
    floatConvert "abc" = .ok vnone ∧
    timeConvert "abc" = .ok vnone ∧
    timeConvert "1:2:3:4:5" = .ok vnone := by
  refine ⟨rfl, rfl, rfl, rfl, rfl, rfl, rfl, rfl⟩

/-! ## C10: in-place normalisation of the runs list -/

/-- C10.  `group_multiple_runs` rebinds every entry of the caller's `runs`
list before aggregating (the first component of the model is the list the
caller observes after the call): a `None` placeholder becomes an empty dict,
a scanned extractor instance becomes its `as_dict` projection, and an entry
that is already a dict is kept.  This holds whether or not the grouping
itself then raises. -/
theorem group_mutates_runs (gk : Option String) (runs : List RunInput) (i : ℕ) :
    (group_multiple_runs gk runs).1.get? i = (runs.get? i).map normalizeRun ∧
    normalizeRun RunInput.noneInput = ([] : List (String × PyVal)) ∧
    (∀ e : StatsExtractor, normalizeRun (RunInput.extractorInput e) = e.as_dict) ∧
    (∀ d : Record, normalizeRun (RunInput.dictInput d) = d) := by
  refine ⟨?_, rfl, fun _ => rfl, fun _ => rfl⟩
  simp [group_multiple_runs]

/-! ## C1: group-by key consistency -/

theorem setInsert_append (xs : List PyVal) (v : PyVal) :
    ∃ t, setInsert xs v = xs ++ t := by
  unfold setInsert
  by_cases h : xs.any (fun x => pyEq x v)
  · exact ⟨[], by simp [h]⟩
  · exact ⟨[v], by simp [h]⟩

theorem pySetFold_append (vs : List PyVal) (acc : List PyVal) :
    ∃ t, List.foldl setInsert acc vs = acc ++ t := by
  induction vs generalizing acc with
  | nil => exact ⟨[], by simp⟩
  | cons v vs ih =>
    obtain ⟨t1, h1⟩ := setInsert_append acc v
    obtain ⟨t2, h2⟩ := ih (setInsert acc v)
    refine ⟨t1 ++ t2, ?_⟩
    simp only [List.foldl]
    rw [h2, h1, List.append_assoc]

theorem pySetFold_all_eq (vs : List PyVal) (v0 : PyVal)
    (h : ∀ v ∈ vs, pyEq v0 v = true) :
    List.foldl setInsert [v0] vs = [v0] := by
  induction vs with
  | nil => rfl
  | cons v vs ih =>
    have hv : pyEq v0 v = true := h v (by simp)
    have : setInsert [v0] v = [v0] := by simp [setInsert, hv]
    simp only [List.foldl, this]
    exact ih (fun u hu => h u (by simp [hu]))

theorem pySetFold_length_mono (vs : List PyVal) (acc : List PyVal) :
    acc.length ≤ (List.foldl setInsert acc vs).length := by
  obtain ⟨t, ht⟩ := pySetFold_append vs acc
  simp [ht]

theorem pySetFold_two_of_ne (vs : List PyVal) (v0 : PyVal)
    (h : ∃ v ∈ vs, pyEq v0 v = false) :
    2 ≤ (List.foldl setInsert [v0] vs).length := by
  induction vs with
  | nil => simp at h
  | cons v vs ih =>
    by_cases hv : pyEq v0 v = true
    · have hins : setInsert [v0] v = [v0] := by simp [setInsert, hv]
      simp only [List.foldl, hins]
      refine ih ?_
      obtain ⟨u, hu, hne⟩ := h
      rcases List.mem_cons.mp hu with hu | hu
      · rw [hu] at hne
        rw [hne] at hv
        cases hv
      · exact ⟨u, hu, hne⟩
    · have hins : setInsert [v0] v = [v0, v] := by
        simp [setInsert, hv]
      simp only [List.foldl, hins]
      have := pySetFold_length_mono vs [v0, v]
      simpa using this

theorem groupKeyValue_spec (key : String) (rs : List Record) (v0 : PyVal)
    (vs : List PyVal) (hvals : gkValues key rs = v0 :: vs)
    (hhash : ∀ v ∈ v0 :: vs, pyHashable v = true) :
    (groupKeyValue key rs = .ok v0 ↔ ∀ v ∈ vs, pyEq v0 v = true) ∧
    (groupKeyValue key rs = .error PyExc.assertionError ↔
      ∃ v ∈ vs, pyEq v0 v = false) ∧
    (∀ v, groupKeyValue key rs = .ok v → v = v0) := by
  have hnothash : ((v0 :: vs).any fun v => !pyHashable v) = false := by
    simp only [List.any_eq_false]
    intro v hv
    simp [hhash v hv]
  simp only [groupKeyValue, hvals, hnothash, Bool.false_eq_true, if_false]
  have hset : pySet (v0 :: vs) = List.foldl setInsert [v0] vs := by
    simp [pySet, List.foldl, setInsert]
  rw [hset]
  by_cases hall : ∀ v ∈ vs, pyEq v0 v = true
  · rw [pySetFold_all_eq vs v0 hall]
    refine ⟨⟨fun _ => hall, fun _ => rfl⟩, ⟨?_, ?_⟩, ?_⟩
    · intro h
      cases h
    · rintro ⟨v, hv, hne⟩
      exact absurd (hall v hv) (by simp [hne])
    · intro v hv
      cases hv
      rfl
  · push_neg at hall
    obtain ⟨v, hv, hne⟩ := hall
    have hne' : pyEq v0 v = false := by
      cases h : pyEq v0 v
      · rfl
      · exact absurd h hne
    have h2 := pySetFold_two_of_ne vs v0 ⟨v, hv, hne'⟩
    have herr :
        (match List.foldl setInsert [v0] vs with
          | [v] => Except.ok v
          | _ => Except.error PyExc.assertionError) =
          (Except.error PyExc.assertionError : Except PyExc PyVal) := by
      cases hfold : List.foldl setInsert [v0] vs with
      | nil => rfl
      | cons a t =>
        cases t with
        | nil => rw [hfold] at h2; simp at h2
        | cons b t2 => rfl
    rw [herr]
    exact ⟨⟨fun h => Except.noConfusion h, fun h => absurd (h v hv) (by simp [hne'])⟩,
           ⟨fun _ => ⟨v, hv, hne'⟩, fun _ => rfl⟩,
           fun w hw => Except.noConfusion hw⟩

theorem lookup_isSome_mem_keys {α : Type} (k : String) (l : List (String × α))
    (h : (List.lookup k l).isSome) : k ∈ l.map Prod.fst := by
  induction l with
  | nil => simp [List.lookup] at h
  | cons kv l ih =>
    simp only [List.lookup] at h
    cases hbeq : (k == kv.1) with
    | true =>
      have : k = kv.1 := by simpa using hbeq
      simp [this]
    | false =>
      rw [hbeq] at h
      simp only [List.map, List.mem_cons]
      exact Or.inr (ih h)

theorem mem_allKeys_insert (l : List String) (acc : List String) (k : String) :
    k ∈ List.foldl (fun acc k => if k ∈ acc then acc else acc ++ [k]) acc l ↔
      k ∈ acc ∨ k ∈ l := by
  induction l generalizing acc with
  | nil => simp
  | cons k0 l ih =>
    simp only [List.foldl]
    rw [ih]
    by_cases h0 : k0 ∈ acc
    · rw [if_pos h0]
      constructor
      · rintro (h | h)
        · exact Or.inl h
        · exact Or.inr (by simp [h])
      · rintro (h | h)
        · exact Or.inl h
        · rcases List.mem_cons.mp h with h | h
          · exact Or.inl (h ▸ h0)
          · exact Or.inr h
    · rw [if_neg h0]
      simp only [List.mem_append, List.mem_singleton, List.mem_cons]
      tauto

theorem gkValues_nonempty_mem (g : String) (rs : List Record) (v0 : PyVal)
    (vs : List PyVal) (h : gkValues g rs = v0 :: vs) : g ∈ allKeys rs := by
  have hne : (rs.filter (fun r => r.hasKey g)) ≠ [] := by
    intro hc
    rw [gkValues, hc] at h
    simp at h
  obtain ⟨r, hr⟩ := List.exists_mem_of_ne_nil _ hne
  have hrmem : r ∈ rs := (List.mem_filter.mp hr).1
  have hkey : r.hasKey g := by
    have := (List.mem_filter.mp hr).2
    simpa using this
  rw [allKeys, mem_allKeys_insert]
  right
  rw [List.mem_flatMap]
  exact ⟨r, hrmem, lookup_isSome_mem_keys g r hkey⟩

theorem buildRetval_ok_of_gkv_ok (g : String) (rs : List Record) (v : PyVal)
    (hgkv : groupKeyValue g rs = .ok v) (keys : List String) :
    ∃ r, buildRetval (some g) rs keys = .ok r ∧
      (g ∈ keys → Record.lookup r g = some v) := by
  induction keys with
  | nil => exact ⟨[], rfl, by simp⟩
  | cons k ks ih =>
    obtain ⟨r, hr, hlook⟩ := ih
    by_cases hk : k = g
    · subst hk
      refine ⟨(k, v) :: r, ?_, ?_⟩
      · simp [buildRetval, hgkv, hr, Except.map]
      · intro _
        simp [Record.lookup, List.lookup]
    · refine ⟨(k, runColumn k rs) :: r, ?_, ?_⟩
      · simp only [buildRetval]
        rw [if_neg (fun hc => hk (Option.some.inj hc)), hr]
        rfl
      · intro hmem
        have hg : g ∈ ks := by
          rcases List.mem_cons.mp hmem with h | h
          · exact absurd h.symm hk
          · exact h
        simp only [Record.lookup, List.lookup]
        have hbeq : (g == k) = false := by
          simp
          exact fun hc => hk hc.symm
        rw [hbeq]
        exact hlook hg

theorem buildRetval_error_of_gkv_error (g : String) (rs : List Record)
    (e : PyExc) (hgkv : groupKeyValue g rs = .error e) (keys : List String)
    (hmem : g ∈ keys) : buildRetval (some g) rs keys = .error e := by
  induction keys with
  | nil => simp at hmem
  | cons k ks ih =>
    by_cases hk : k = g
    · subst hk
      simp [buildRetval, hgkv]
    · have hg : g ∈ ks := by
        rcases List.mem_cons.mp hmem with h | h
        · exact absurd h.symm hk
        · exact h
      simp only [buildRetval]
      rw [if_neg (fun hc => hk (Option.some.inj hc)), ih hg]
      rfl

theorem buildRetval_error_gkv (g : String) (rs : List Record) (e : PyExc)
    (keys : List String) (h : buildRetval (some g) rs keys = .error e) :
    groupKeyValue g rs = .error e := by
  induction keys with
  | nil => simp [buildRetval] at h
  | cons k ks ih =>
    by_cases hk : k = g
    · subst hk
      simp only [buildRetval, if_pos rfl] at h
      cases hgkv : groupKeyValue k rs with
      | error e2 =>
        rw [hgkv] at h
        cases h
        rfl
      | ok v =>
        rw [hgkv] at h
        cases hrec : buildRetval (some k) rs ks with
        | error e2 =>
          rw [hrec] at h
          simp only [Except.map] at h
          injection h with he
          subst he
          have hc := ih hrec
          rw [hgkv] at hc
          cases hc
        | ok r => rw [hrec] at h; cases h
    · simp only [buildRetval] at h
      rw [if_neg (fun hc => hk (Option.some.inj hc))] at h
      cases hrec : buildRetval (some g) rs ks with
      | error e2 =>
        rw [hrec] at h
        simp only [Except.map] at h
        injection h with he
        subst he
        exact ih hrec
      | ok r => rw [hrec] at h; cases h

/-- C1 counterexample.  The claim says grouping raises iff the group-by key
has more than one distinct *non-null* value.  Here one record holds `"A"` and
the other holds `None` for the key: there is exactly one distinct non-null
value, yet the `assert` fires, because the code collects *all* values of the
records defining the key, `None` included. -/
theorem group_nonnull_counterexample :
    (group_multiple_runs (some "g")
      [RunInput.dictInput [("g", vstr "A")], RunInput.dictInput [("g", vnone)]]).2
      = Except.error PyExc.assertionError ∧
    (pySet ((gkValues "g" [[("g", vstr "A")], [("g", vnone)]]).filter
        (fun v => !isNone v))).length = 1 := by
  exact ⟨rfl, rfl⟩

/-- C1 amended.  With a designated group-by key `g` and (hashable) values
`v0 :: vs` held by the records that define `g` (records lacking `g` are
ignored), grouping raises the `AssertionError` iff some record's value for
`g` differs (under Python `==`) from the first one — null values count like
any other value — and on success the single shared value `v0` is stored once
under `g`, not as a per-run list. -/
theorem group_amended (g : String) (runs : List RunInput) (v0 : PyVal)
    (vs : List PyVal)
    (hvals : gkValues g (runs.map normalizeRun) = v0 :: vs)
    (hhash : ∀ v ∈ v0 :: vs, pyHashable v = true) :
    ((group_multiple_runs (some g) runs).2 = Except.error PyExc.assertionError ↔
      ∃ v ∈ vs, pyEq v0 v = false) ∧
    (∀ r, (group_multiple_runs (some g) runs).2 = Except.ok r →
      Record.lookup r g = some v0) := by
  have hspec := groupKeyValue_spec g (runs.map normalizeRun) v0 vs hvals hhash
  have hmem := gkValues_nonempty_mem g (runs.map normalizeRun) v0 vs hvals
  constructor
  · constructor
    · intro h
      exact hspec.2.1.mp (buildRetval_error_gkv g _ _ _ h)
    · intro h
      exact buildRetval_error_of_gkv_error g _ _ (hspec.2.1.mpr h) _ hmem
  · intro r hr
    cases hgkv : groupKeyValue g (runs.map normalizeRun) with
    | error e =>
      have := buildRetval_error_of_gkv_error g _ _ hgkv _ hmem
      rw [group_multiple_runs] at hr
      simp only at hr
      rw [this] at hr
      cases hr
    | ok v =>
      have hv0 : v = v0 := hspec.2.2 v hgkv
      subst hv0
      obtain ⟨r2, hr2, hlook⟩ := buildRetval_ok_of_gkv_ok g _ _ hgkv (allKeys (runs.map normalizeRun))
      rw [group_multiple_runs] at hr
      simp only at hr
      rw [hr2] at hr
      injection hr with he
      subst he
      exact hlook hmem

/-- Witness for C1 amended: two runs agreeing on `"A"`, plus a missing-file
placeholder that defines no keys at all; grouping succeeds and stores `"A"`
once. -/
theorem group_amended_witness :
    ((group_multiple_runs (some "g")
        [RunInput.dictInput [("g", vstr "A"), ("x", vint 1)],
         RunInput.noneInput,
         RunInput.dictInput [("g", vstr "A")]]).2
        = Except.error PyExc.assertionError ↔
      ∃ v ∈ [vstr "A"], pyEq (vstr "A") v = false) ∧
    (∀ r, (group_multiple_runs (some "g")
        [RunInput.dictInput [("g", vstr "A"), ("x", vint 1)],
         RunInput.noneInput,
         RunInput.dictInput [("g", vstr "A")]]).2 = Except.ok r →
      Record.lookup r "g" = some (vstr "A")) :=
  group_amended "g"
    [RunInput.dictInput [("g", vstr "A"), ("x", vint 1)],
     RunInput.noneInput,
     RunInput.dictInput [("g", vstr "A")]]
    (vstr "A") [vstr "A"] rfl (by decide)

/-! ## C5: pairwise delta semantics -/

theorem fabs_feq_zero_iff (f : PyFloat) :
    PyFloat.feq (PyFloat.fabs f) (PyFloat.finite 0) = true ↔ f = PyFloat.finite 0 := by
  cases f <;> simp [PyFloat.fabs, PyFloat.feq]

/-- C5.  For operands that are both null, the delta is null; for operands of
mismatched runtime types it is null; for same-typed integer, float or
duration operands: an invalid operand (negative integer or duration, NaN
float) gives NaN, equal (`==`) valid operands give `0.0`, a zero-valued
reference gives `+Infinity` or `-Infinity` by the sign of the other operand,
and otherwise the result is `(numeric(v2) - numeric(v1)) / numeric(v1)`
computed in float arithmetic, with `numeric` mapping a duration to its total
seconds (`deltaToFloat`). -/
theorem get_delta_percent_spec (v1 v2 : PyVal) :
    (get_delta_percent vnone vnone = vnone) ∧
    (pyTypeOf v1 ≠ pyTypeOf v2 → get_delta_percent v1 v2 = vnone) ∧
    (pyTypeOf v1 = pyTypeOf v2 →
      (pyTypeOf v1 = PyType.intT ∨ pyTypeOf v1 = PyType.floatT ∨ pyTypeOf v1 = PyType.tdT) →
      ((deltaValid v1 = false ∨ deltaValid v2 = false) →
        get_delta_percent v1 v2 = vfloat PyFloat.nan) ∧
      (deltaValid v1 = true → deltaValid v2 = true →
        (pyEq v1 v2 = true → get_delta_percent v1 v2 = vfloat (PyFloat.finite 0)) ∧
        (pyEq v1 v2 = false → deltaToFloat v1 = PyFloat.finite 0 →
          get_delta_percent v1 v2 =
            (if PyFloat.flt (PyFloat.finite 0) (deltaToFloat v2) = true
             then vfloat PyFloat.inf else vfloat PyFloat.negInf)) ∧
        (pyEq v1 v2 = false → deltaToFloat v1 ≠ PyFloat.finite 0 →
          get_delta_percent v1 v2 =
            vfloat (PyFloat.fdiv (PyFloat.fsub (deltaToFloat v2) (deltaToFloat v1))
                                 (deltaToFloat v1))))) := by
  refine ⟨rfl, ?_, ?_⟩
  · intro h
    have hnn : ¬(isNone v1 = true ∧ isNone v2 = true) := by
      rintro ⟨h1, h2⟩
      cases v1 <;> simp [isNone] at h1
      cases v2 <;> simp [isNone] at h2
      exact h rfl
    simp [get_delta_percent, hnn, h]
  · intro hty hscope
    have hnn : ¬(isNone v1 = true ∧ isNone v2 = true) := by
      rintro ⟨h1, h2⟩
      cases v1 <;> simp [isNone] at h1
      rcases hscope with h | h | h <;> simp [pyTypeOf] at h
    constructor
    · intro hinv
      rcases hinv with h | h <;>
        simp [get_delta_percent, hnn, hty, h]
    · intro hv1 hv2
      refine ⟨?_, ?_, ?_⟩
      · intro heq
        simp [get_delta_percent, hnn, hty, hv1, hv2, heq]
      · intro hne hzero
        have habs : PyFloat.feq (PyFloat.fabs (deltaToFloat v1)) (PyFloat.finite 0) = true :=
          (fabs_feq_zero_iff _).mpr hzero
        by_cases hpos : PyFloat.flt (PyFloat.finite 0) (deltaToFloat v2) = true <;>
          simp [get_delta_percent, hnn, hty, hv1, hv2, hne, habs, hpos]
      · intro hne hnzero
        have habs : PyFloat.feq (PyFloat.fabs (deltaToFloat v1)) (PyFloat.finite 0) = false := by
          cases h : PyFloat.feq (PyFloat.fabs (deltaToFloat v1)) (PyFloat.finite 0)
          · rfl
          · exact absurd ((fabs_feq_zero_iff _).mp h) hnzero
        simp [get_delta_percent, hnn, hty, hv1, hv2, hne, habs]

/-- Witness for C5 at concrete inputs: the zero-reference branch, the general
ratio branch, an invalid (negative) operand, and a type mismatch. -/
theorem get_delta_percent_spec_witness :
    get_delta_percent (vint 0) (vint 5) = vfloat PyFloat.inf ∧
    get_delta_percent (vint 2) (vint 4) =
      vfloat (PyFloat.fdiv (PyFloat.fsub (PyFloat.finite 4) (PyFloat.finite 2))
                           (PyFloat.finite 2)) ∧
    get_delta_percent (vint (-1)) (vint 3) = vfloat PyFloat.nan ∧
    get_delta_percent (vint 1) (vfloat (PyFloat.finite 1)) = vnone := by
  have h05 := (get_delta_percent_spec (vint 0) (vint 5)).2.2 rfl (Or.inl rfl)
  have h24 := (get_delta_percent_spec (vint 2) (vint 4)).2.2 rfl (Or.inl rfl)
  have hneg := (get_delta_percent_spec (vint (-1)) (vint 3)).2.2 rfl (Or.inl rfl)
  have hmis := (get_delta_percent_spec (vint 1) (vfloat (PyFloat.finite 1))).2.1
  refine ⟨?_, ?_, ?_, ?_⟩
  · have := (h05.2 rfl rfl).2.1 (by decide) rfl
    simpa [deltaToFloat, PyFloat.flt] using this
  · have := (h24.2 rfl rfl).2.2 (by decide) (by decide)
    simpa [deltaToFloat] using this
  · exact hneg.1 (Or.inl (by decide))
  · exact hmis (by decide)

/-! ## C2: deltas in the computed footer -/

theorem add_deltas_group_lookup (g : Record) (g2 : Record) (k : String) (v : PyVal)
    (h1 : add_deltas_group g = .ok g2) (h2 : Record.lookup g k = some v) :
    ∃ w, addDeltasEntry v = .ok w ∧ Record.lookup g2 k = some w := by
  induction g generalizing g2 with
  | nil => simp [Record.lookup, List.lookup] at h2
  | cons kv rest ih =>
    simp only [add_deltas_group] at h1
    cases hE : addDeltasEntry kv.2 with
    | error e =>
      rw [hE] at h1
      simp [Bind.bind, Except.bind] at h1
    | ok w0 =>
      rw [hE] at h1
      cases hrest : add_deltas_group rest with
      | error e =>
        rw [hrest] at h1
        simp [Bind.bind, Except.bind] at h1
      | ok rest2 =>
        rw [hrest] at h1
        simp only [Bind.bind, Except.bind, Pure.pure, Except.pure] at h1
        injection h1 with hg2
        subst hg2
        simp only [Record.lookup, List.lookup] at h2 ⊢
        cases hbeq : (k == kv.1) with
        | true =>
          rw [hbeq] at h2
          injection h2 with hv
          subst hv
          exact ⟨w0, hE, rfl⟩
        | false =>
          rw [hbeq] at h2
          exact ih rest2 hrest h2

/-- C2 counterexample.  The claim says that with `with_delta` the `avg`
entries carry deltas against the corresponding `max` entries.  For the
grouped runs `x = [1, 3]` and `x = [3, 5]`: `avg.x = [2, 4]`,
`max.x = [3, 5]`, and the annotation the code stores on `avg.x[1]` is
`delta(2, 4) = 1.0` — the delta against `avg`'s own first slot — which is
not the delta against either `max` entry. -/
theorem footer_avg_delta_counterexample :
    compute_footer [[("x", vlist [vint 1, vint 3])], [("x", vlist [vint 3, vint 5])]] true
      = .ok ⟨[("x", vlist [vint 3, vbox (vint 5) (vfloat (PyFloat.finite (2/3)))])],
             [("x", vlist [vint 2, vbox (vint 4) (vfloat (PyFloat.finite 1))])]⟩ ∧
    get_delta_percent (vint 2) (vint 4) = vfloat (PyFloat.finite 1) ∧
    get_delta_percent (vint 5) (vint 4) ≠ vfloat (PyFloat.finite 1) ∧
    get_delta_percent (vint 3) (vint 4) ≠ vfloat (PyFloat.finite 1) := by
  have h1 : get_delta_percent (vint 2) (vint 4) = vfloat (PyFloat.finite 1) := by
    norm_num [get_delta_percent, isNone, pyTypeOf, deltaValid, deltaToFloat, pyEq,
      PyFloat.feq, PyFloat.fabs, PyFloat.fsub, PyFloat.fdiv, PyFloat.flt]
  have h2 : get_delta_percent (vint 3) (vint 5) = vfloat (PyFloat.finite (2/3)) := by
    norm_num [get_delta_percent, isNone, pyTypeOf, deltaValid, deltaToFloat, pyEq,
      PyFloat.feq, PyFloat.fabs, PyFloat.fsub, PyFloat.fdiv, PyFloat.flt]
  refine ⟨?_, h1, ?_, ?_⟩
  · norm_num [compute_footer, footerAccum, Record.lookup, dictSet, expandBinary,
      expandBinaryCore, expandBL, binaryLeaf, expandUnary, expandUnaryCore,
      expandUL, unaryLeaf, val_of, sumAct, maxAct, divide_value, allowedNum, pyTypeOf,
      add_deltas_group, addDeltasEntry, ratTrunc, List.lookup, h1, h2,
      List.mapM, List.mapM.loop, Except.map, Except.pure, Bind.bind, Except.bind,
      Functor.map, Pure.pure]
  · norm_num [get_delta_percent, isNone, pyTypeOf, deltaValid, deltaToFloat, pyEq,
      PyFloat.feq, PyFloat.fabs, PyFloat.fsub, PyFloat.fdiv, PyFloat.flt]
  · norm_num [get_delta_percent, isNone, pyTypeOf, deltaValid, deltaToFloat, pyEq,
      PyFloat.feq, PyFloat.fabs, PyFloat.fsub, PyFloat.fdiv, PyFloat.flt]

/-- C2 amended.  With `with_delta`, `compute_footer_from_grouped_runs` passes
the `avg` and `max` dicts to `add_deltas_to_grouped_runs` as two independent
groups: the footer equals the `with_delta=False` footer with each group
delta-annotated separately, so every list-valued `avg` entry is annotated
against its own first element (never against `max`). -/
theorem footer_delta_amended (groups : List Record) :
    (∃ f0, compute_footer groups false = .ok f0 ∧
      compute_footer groups true = (do
        let a ← add_deltas_group f0.avg
        let m ← add_deltas_group f0.max
        pure (⟨m, a⟩ : Footer))) ∧
    (∀ f0 f1 : Footer, ∀ k : String, ∀ v0 : PyVal, ∀ vs : List PyVal,
      compute_footer groups false = .ok f0 →
      compute_footer groups true = .ok f1 →
      Record.lookup f0.avg k = some (vlist (v0 :: vs)) →
      Record.lookup f1.avg k =
        some (vlist (v0 :: vs.map (fun v => vbox v (get_delta_percent v0 v))))) := by
  constructor
  · refine ⟨⟨(footerAccum groups).2,
      ((footerAccum groups).1.map
        (fun kv => (kv.1, expandUnary (divide_value groups.length) kv.2)))⟩, ?_, ?_⟩
    · rw [compute_footer]
      rfl
    · rw [compute_footer]
      rfl
  · intro f0 f1 k v0 vs h0 h1 hlook
    have hf0 : f0 = ⟨(footerAccum groups).2,
        ((footerAccum groups).1.map
          (fun kv => (kv.1, expandUnary (divide_value groups.length) kv.2)))⟩ := by
      rw [compute_footer] at h0
      simp only [if_neg (by simp : ¬(false = true))] at h0
      injection h0 with h0
      exact h0.symm
    rw [compute_footer] at h1
    simp only [if_pos rfl] at h1
    cases hA : add_deltas_group ((footerAccum groups).1.map
        (fun kv => (kv.1, expandUnary (divide_value groups.length) kv.2))) with
    | error e =>
      rw [hA] at h1
      simp [Bind.bind, Except.bind] at h1
    | ok a =>
      rw [hA] at h1
      cases hM : add_deltas_group (footerAccum groups).2 with
      | error e =>
        rw [hM] at h1
        simp [Bind.bind, Except.bind] at h1
      | ok m =>
        rw [hM] at h1
        simp only [Bind.bind, Except.bind, Pure.pure, Except.pure] at h1
        injection h1 with hf1
        subst hf1
        have hlook2 : Record.lookup f0.avg k = some (vlist (v0 :: vs)) := hlook
        rw [hf0] at hlook2
        obtain ⟨w, hw, hwl⟩ := add_deltas_group_lookup _ a k _ hA hlook2
        rw [addDeltasEntry] at hw
        injection hw with hw
        subst hw
        exact hwl

/-- Witness for C2 amended at the counterexample's concrete grouped runs. -/
theorem footer_delta_amended_witness :
    Record.lookup
      (Footer.avg ⟨[("x", vlist [vint 3, vbox (vint 5) (vfloat (PyFloat.finite (2/3)))])],
                   [("x", vlist [vint 2, vbox (vint 4) (vfloat (PyFloat.finite 1))])]⟩) "x"
      = some (vlist (vint 2 :: [vint 4].map
          (fun v => vbox v (get_delta_percent (vint 2) v)))) := by
  have hfalse : compute_footer
      [[("x", vlist [vint 1, vint 3])], [("x", vlist [vint 3, vint 5])]] false
      = .ok ⟨[("x", vlist [vint 3, vint 5])], [("x", vlist [vint 2, vint 4])]⟩ := by
    norm_num [compute_footer, footerAccum, Record.lookup, dictSet, expandBinary,
      expandBinaryCore, expandBL, binaryLeaf, expandUnary, expandUnaryCore,
      expandUL, unaryLeaf, val_of, sumAct, maxAct, divide_value, allowedNum, pyTypeOf,
      ratTrunc, List.lookup, Pure.pure, Except.pure]
  have hlook : Record.lookup
      ([("x", vlist [vint 2, vint 4])] : Record) "x" = some (vlist (vint 2 :: [vint 4])) := rfl
  have hd1 : get_delta_percent (vint 2) (vint 4) = vfloat (PyFloat.finite 1) := by
    norm_num [get_delta_percent, isNone, pyTypeOf, deltaValid, deltaToFloat, pyEq,
      PyFloat.feq, PyFloat.fabs, PyFloat.fsub, PyFloat.fdiv, PyFloat.flt]
  have hd2 : get_delta_percent (vint 3) (vint 5) = vfloat (PyFloat.finite (2/3)) := by
    norm_num [get_delta_percent, isNone, pyTypeOf, deltaValid, deltaToFloat, pyEq,
      PyFloat.feq, PyFloat.fabs, PyFloat.fsub, PyFloat.fdiv, PyFloat.flt]
  have htrue : compute_footer
      [[("x", vlist [vint 1, vint 3])], [("x", vlist [vint 3, vint 5])]] true
      = .ok ⟨[("x", vlist [vint 3, vbox (vint 5) (vfloat (PyFloat.finite (2/3)))])],
             [("x", vlist [vint 2, vbox (vint 4) (vfloat (PyFloat.finite 1))])]⟩ := by
    norm_num [compute_footer, footerAccum, Record.lookup, dictSet, expandBinary,
      expandBinaryCore, expandBL, binaryLeaf, expandUnary, expandUnaryCore,
      expandUL, unaryLeaf, val_of, sumAct, maxAct, divide_value, allowedNum, pyTypeOf,
      add_deltas_group, addDeltasEntry, ratTrunc, List.lookup, hd1, hd2,
      Bind.bind, Except.bind, Pure.pure, Except.pure]
  exact (footer_delta_amended
      [[("x", vlist [vint 1, vint 3])], [("x", vlist [vint 3, vint 5])]]).2
    ⟨[("x", vlist [vint 3, vint 5])], [("x", vlist [vint 2, vint 4])]⟩
    ⟨[("x", vlist [vint 3, vbox (vint 5) (vfloat (PyFloat.finite (2/3)))])],
     [("x", vlist [vint 2, vbox (vint 4) (vfloat (PyFloat.finite 1))])]⟩
    "x" (vint 2) [vint 4] hfalse htrue hlook

/-! ## C7: footer aggregation semantics -/

theorem expandBL_length (act : PyVal → PyVal → PyVal) (as bs : List PyVal) :
    (expandBL act as bs).length = min as.length bs.length := by
  induction as generalizing bs with
  | nil => cases bs <;> simp [expandBL]
  | cons a as ih =>
    cases bs with
    | nil => simp [expandBL]
    | cons b bs =>
      simp [expandBL, ih, Nat.succ_min_succ]

theorem ratTrunc_nonneg_floor (q : ℚ) (h : 0 ≤ q) : ratTrunc q = ⌊q⌋ := by
  rw [ratTrunc, if_neg (not_lt.mpr h)]

theorem ratTrunc_neg_ceil (q : ℚ) (h : q < 0) : ratTrunc q = ⌈q⌉ := by
  rw [ratTrunc, if_pos h, Int.floor_neg]
  exact neg_neg _

/-- C7.  Footer statistics over grouped runs: the `avg` of the groups
`x = 2, 4, 6` is `x = 4` and their `max` is `x = 6`; elementwise combination
of two sequences is position-wise over the length of the shorter one (so the
running sum of `x = [1,2,3]` and `x = [10,20]` is `[11, 22]`); and division
by the group count truncates integers toward zero (floor for nonnegative,
ceiling for negative), divides a duration via its total seconds, divides
floats numerically, and maps non-numeric leaves to null. -/
theorem footer_stats_spec :
    (∃ f, compute_footer [[("x", vint 2)], [("x", vint 4)], [("x", vint 6)]] true = .ok f ∧
      Record.lookup f.avg "x" = some (vint 4) ∧
      Record.lookup f.max "x" = some (vint 6)) ∧
    (expandBinary sumAct (vlist [vint 1, vint 2, vint 3]) (vlist [vint 10, vint 20])
      = vlist [vint 11, vint 22]) ∧
    (∀ ls rs : List PyVal, ∃ ys : List PyVal,
      expandBinary sumAct (vlist ls) (vlist rs) = vlist ys ∧
      ys.length = min ls.length rs.length) ∧
    (∀ c : ℕ, 0 < c →
      (∀ n : ℤ, 0 ≤ n →
        expandUnary (divide_value c) (vint n) = vint ⌊(n : ℚ) / (c : ℚ)⌋) ∧
      (∀ n : ℤ, n < 0 →
        expandUnary (divide_value c) (vint n) = vint ⌈(n : ℚ) / (c : ℚ)⌉) ∧
      (∀ q : ℚ, expandUnary (divide_value c) (vtd q) = vtd (roundMicro (q / (c : ℚ)))) ∧
      (∀ q : ℚ, expandUnary (divide_value c) (vfloat (PyFloat.finite q))
        = vfloat (PyFloat.finite (q / (c : ℚ)))) ∧
      (∀ s : String, expandUnary (divide_value c) (vstr s) = vnone) ∧
      expandUnary (divide_value c) vnone = vnone) := by
  refine ⟨?_, ?_, ?_, ?_⟩
  · refine ⟨⟨[("x", vint 6)], [("x", vint 4)]⟩, ?_, rfl, rfl⟩
    norm_num [compute_footer, footerAccum, Record.lookup, dictSet, expandBinary,
      expandBinaryCore, expandBL, binaryLeaf, expandUnary, expandUnaryCore, expandUL,
      unaryLeaf, val_of, sumAct, maxAct, divide_value, allowedNum, pyTypeOf,
      add_deltas_group, addDeltasEntry, ratTrunc, List.lookup,
      Bind.bind, Except.bind, Pure.pure, Except.pure]
  · norm_num [expandBinary, expandBinaryCore, expandBL, binaryLeaf, val_of, sumAct,
      allowedNum, pyTypeOf]
  · intro ls rs
    by_cases h : ls.length < rs.length
    · refine ⟨expandBL sumAct rs ls, ?_, ?_⟩
      · simp [expandBinary, val_of, expandBinaryCore, h]
      · rw [expandBL_length, Nat.min_comm]
    · refine ⟨expandBL sumAct ls rs, ?_, ?_⟩
      · simp [expandBinary, val_of, expandBinaryCore, h]
      · rw [expandBL_length]
  · intro c hc
    have hcq : (0 : ℚ) < (c : ℚ) := by exact_mod_cast hc
    refine ⟨?_, ?_, ?_, ?_, ?_, ?_⟩
    · intro n hn
      have hq : 0 ≤ (n : ℚ) / (c : ℚ) := by
        apply div_nonneg _ (le_of_lt hcq)
        exact_mod_cast hn
      simp [expandUnary, val_of, expandUnaryCore, unaryLeaf, allowedNum, pyTypeOf,
        divide_value, ratTrunc_nonneg_floor _ hq]
    · intro n hn
      have hq : (n : ℚ) / (c : ℚ) < 0 := by
        apply div_neg_of_neg_of_pos _ hcq
        exact_mod_cast hn
      simp [expandUnary, val_of, expandUnaryCore, unaryLeaf, allowedNum, pyTypeOf,
        divide_value, ratTrunc_neg_ceil _ hq]
    · intro q
      simp [expandUnary, val_of, expandUnaryCore, unaryLeaf, allowedNum, pyTypeOf,
        divide_value]
    · intro q
      simp [expandUnary, val_of, expandUnaryCore, unaryLeaf, allowedNum, pyTypeOf,
        divide_value, PyFloat.fdiv, ne_of_gt hcq]
    · intro s
      simp [expandUnary, val_of, expandUnaryCore, unaryLeaf, allowedNum, pyTypeOf]
    · simp [expandUnary, val_of, expandUnaryCore, unaryLeaf, allowedNum, pyTypeOf]

/-- Witness for C7's division clauses: dividing `7` and `-7` by a group
count of `2` truncates toward zero. -/
theorem footer_stats_spec_witness :
    expandUnary (divide_value 2) (vint 7) = vint 3 ∧
    expandUnary (divide_value 2) (vint (-7)) = vint (-3) ∧
    expandUnary (divide_value 2) (vstr "a") = vnone := by
  have h := footer_stats_spec.2.2.2 2 (by norm_num)
  refine ⟨?_, ?_, h.2.2.2.2.1 "a"⟩
  · rw [h.1 7 (by norm_num)]
    norm_num
  · rw [h.2.1 (-7) (by norm_num)]
    norm_num
    rw [Int.ceil_neg]
    norm_num

/-! ## C8: per-column delta visibility -/

theorem lookup_dictSet_self {α : Type} (r : List (String × α)) (k : String) (v : α) :
    List.lookup k (dictSet r k v) = some v := by
  induction r with
  | nil => simp [dictSet, List.lookup]
  | cons kv rest ih =>
    by_cases hk : kv.1 = k
    · cases kv
      simp_all [dictSet, List.lookup]
    · cases kv with
      | mk k0 v0 =>
        simp only at hk
        rw [dictSet]
        rw [if_neg hk]
        simp only [List.lookup]
        have : (k == k0) = false := by
          simp
          exact fun hc => hk hc.symm
        rw [this]
        exact ih

theorem lookup_append_of_none {α : Type} (l1 l2 : List (String × α)) (k : String)
    (h : List.lookup k l1 = none) :
    List.lookup k (l1 ++ l2) = List.lookup k l2 := by
  induction l1 with
  | nil => simp
  | cons kv rest ih =>
    simp only [List.lookup] at h ⊢
    cases hbeq : (k == kv.1) with
    | true => rw [hbeq] at h; cases h
    | false =>
      rw [hbeq] at h
      simp only [List.cons_append, List.lookup, hbeq]
      exact ih h

theorem get_column_attribute_set (descs : Descs) (col attrib : String) (v dflt : AttrVal) :
    get_column_attribute (set_column_attribute descs col attrib v) col attrib dflt = v := by
  rw [set_column_attribute]
  cases hl : List.lookup col descs with
  | none =>
    have happ := lookup_append_of_none descs [(col, [(attrib, v)])] col hl
    simp [get_column_attribute, List.append_eq, happ, List.lookup]
  | some d =>
    simp [get_column_attribute, lookup_dictSet_self]

theorem colHasDelta_entry_iff (g : Record) (k : String) :
    (match Record.lookup g k with
      | some (vlist xs) => xs.any (fun v => pyTypeOf v = PyType.boxT)
      | _ => false) = true ↔
    ∃ xs, Record.lookup g k = some (vlist xs) ∧ ∃ v ∈ xs, pyTypeOf v = PyType.boxT := by
  cases hl : Record.lookup g k with
  | none => simp
  | some w =>
    cases w <;> simp [List.any_eq_true]

/-- C8 counterexample.  The claim says `column_has_delta` defaults to true
iff some cell in the column holds a ValueBox with a *non-null* delta.  For a
body whose only column is `x = [None, withdelta(5, None)]` (a wrapped value
whose delta is null, as `add_deltas_to_grouped_runs` produces for
mismatched-type slots), every box in the body and the computed footer has a
null delta, yet the default is true: the code only tests
`isinstance(val, withdelta)`, never the delta. -/
theorem col_has_delta_counterexample :
    tableInit [[("x", vlist [vnone, vbox (vint 5) vnone])]] true
      = .ok ([[("x", vlist [vnone, vbox (vint 5) vnone])]],
             [[("x", vlist [vnone, vbox (vbox (vint 5) vnone) vnone])],
              [("x", vlist [vnone, vbox (vint 5) vnone])]]) ∧
    column_has_delta []
      ([[("x", vlist [vnone, vbox (vint 5) vnone])]] ++
       [[("x", vlist [vnone, vbox (vbox (vint 5) vnone) vnone])],
        [("x", vlist [vnone, vbox (vint 5) vnone])]]) "x" = true ∧
    hasLiveDeltaBox (vlist [vnone, vbox (vint 5) vnone]) = false ∧
    hasLiveDeltaBox (vlist [vnone, vbox (vbox (vint 5) vnone) vnone]) = false := by
  refine ⟨?_, rfl, rfl, rfl⟩
  have hd1 : get_delta_percent vnone (vint 5) = vnone := rfl
  have hd2 : get_delta_percent vnone (vbox (vint 5) vnone) = vnone := rfl
  norm_num [tableInit, compute_footer, footerAccum, Record.lookup, dictSet, expandBinary,
    expandBinaryCore, expandBL, binaryLeaf, expandUnary, expandUnaryCore,
    expandUL, unaryLeaf, val_of, sumAct, maxAct, divide_value, allowedNum, pyTypeOf,
    add_deltas_group, addDeltasEntry, ratTrunc, List.lookup, hd1, hd2,
    Bind.bind, Except.bind, Pure.pure, Except.pure]

/-- C8 amended.  For a table built from grouped runs and its computed footer:
the default `column_has_delta` (no descriptor set) is true iff some body or
footer group holds the column as a *list* containing a `withdelta` instance
(whether or not its delta is null); and the `toggle_delta_off` descriptor
forces it to false regardless of the data. -/
theorem col_has_delta_amended (gs : List Record) (wd : Bool) (tbl ftr : List Record)
    (k : String) (_hinit : tableInit gs wd = .ok (tbl, ftr)) :
    (column_has_delta [] (tbl ++ ftr) k = true ↔
      ∃ g ∈ tbl ++ ftr, ∃ xs, Record.lookup g k = some (vlist xs) ∧
        ∃ v ∈ xs, pyTypeOf v = PyType.boxT) ∧
    (∀ descs : Descs,
      attrTruthy (get_column_attribute descs k "toggle_delta_off" (.b false)) = true →
      column_has_delta descs (tbl ++ ftr) k = false) ∧
    (∀ descs : Descs, ∀ v0 : AttrVal, attrTruthy v0 = true →
      column_has_delta (set_column_attribute descs k "toggle_delta_off" v0)
        (tbl ++ ftr) k = false) := by
  refine ⟨?_, ?_, ?_⟩
  · rw [column_has_delta]
    rw [if_neg (by simp [get_column_attribute, List.lookup, defaultColumnDescriptor, attrTruthy])]
    rw [colHasDeltaDefault, List.any_eq_true]
    constructor
    · rintro ⟨g, hg, hmatch⟩
      exact ⟨g, hg, (colHasDelta_entry_iff g k).mp hmatch⟩
    · rintro ⟨g, hg, hex⟩
      exact ⟨g, hg, (colHasDelta_entry_iff g k).mpr hex⟩
  · intro descs htog
    rw [column_has_delta, if_pos htog]
  · intro descs v0 hv0
    have := get_column_attribute_set descs k "toggle_delta_off" v0 (.b false)
    rw [column_has_delta, this, if_pos hv0]

/-- Witness for C8 amended at the counterexample's concrete table. -/
theorem col_has_delta_amended_witness :
    (column_has_delta []
        ([[("x", vlist [vnone, vbox (vint 5) vnone])]] ++
         [[("x", vlist [vnone, vbox (vbox (vint 5) vnone) vnone])],
          [("x", vlist [vnone, vbox (vint 5) vnone])]]) "x" = true ↔
      ∃ g ∈ [[("x", vlist [vnone, vbox (vint 5) vnone])]] ++
         [[("x", vlist [vnone, vbox (vbox (vint 5) vnone) vnone])],
          [("x", vlist [vnone, vbox (vint 5) vnone])]],
        ∃ xs, Record.lookup g "x" = some (vlist xs) ∧
          ∃ v ∈ xs, pyTypeOf v = PyType.boxT) ∧
    column_has_delta (set_column_attribute [] "x" "toggle_delta_off" (.b true))
      ([[("x", vlist [vnone, vbox (vint 5) vnone])]] ++
       [[("x", vlist [vnone, vbox (vbox (vint 5) vnone) vnone])],
        [("x", vlist [vnone, vbox (vint 5) vnone])]]) "x" = false := by
  have hd1 : get_delta_percent vnone (vint 5) = vnone := rfl
  have hd2 : get_delta_percent vnone (vbox (vint 5) vnone) = vnone := rfl
  have hinit : tableInit [[("x", vlist [vnone, vbox (vint 5) vnone])]] true
      = .ok ([[("x", vlist [vnone, vbox (vint 5) vnone])]],
             [[("x", vlist [vnone, vbox (vbox (vint 5) vnone) vnone])],
              [("x", vlist [vnone, vbox (vint 5) vnone])]]) := by
    norm_num [tableInit, compute_footer, footerAccum, Record.lookup, dictSet, expandBinary,
      expandBinaryCore, expandBL, binaryLeaf, expandUnary, expandUnaryCore,
      expandUL, unaryLeaf, val_of, sumAct, maxAct, divide_value, allowedNum, pyTypeOf,
      add_deltas_group, addDeltasEntry, ratTrunc, List.lookup, hd1, hd2,
      Bind.bind, Except.bind, Pure.pure, Except.pure]
  have h := col_has_delta_amended [[("x", vlist [vnone, vbox (vint 5) vnone])]] true
    [[("x", vlist [vnone, vbox (vint 5) vnone])]]
    [[("x", vlist [vnone, vbox (vbox (vint 5) vnone) vnone])],
     [("x", vlist [vnone, vbox (vint 5) vnone])]]
    "x" hinit
  exact ⟨h.1, h.2.2 [] (.b true) rfl⟩

/-! ## C9: row-collapsing of scalar cells in multi-run groups -/

theorem mem_dictSet_of_ne {α : Type} (r : List (String × α)) (k : String) (v : α)
    (k2 : String) (v2 : α) (h : (k2, v2) ∈ r) (hne : k2 ≠ k) :
    (k2, v2) ∈ dictSet r k v := by
  induction r with
  | nil => simp at h
  | cons kv rest ih =>
    rw [dictSet]
    by_cases hk : kv.1 = k
    · rw [if_pos hk]
      rcases List.mem_cons.mp h with h | h
      · exfalso
        apply hne
        have := congrArg Prod.fst h
        simp only at this
        rw [this, hk]
      · exact List.mem_cons_of_mem _ h
    · rw [if_neg hk]
      rcases List.mem_cons.mp h with h | h
      · exact h ▸ List.mem_cons_self _ _
      · exact List.mem_cons_of_mem _ (ih h)

theorem mem_tagFinalAttributes (attrs : List (String × String)) (classes : List String)
    (k2 : String) (v2 : String) (h : (k2, v2) ∈ attrs) (hne : k2 ≠ "class") :
    (k2, v2) ∈ tagFinalAttributes attrs classes := by
  rw [tagFinalAttributes]
  by_cases hc : classes = []
  · rw [if_neg (by simp [hc])]
    exact List.mem_filter.mpr ⟨h, by simp [hne]⟩
  · rw [if_pos (by simp [hc])]
    exact mem_dictSet_of_ne _ _ _ _ _ h hne

theorem list_mapM_ok {α β : Type} (f : α → Except PyExc β) (g : α → β) (l : List α)
    (h : ∀ a ∈ l, f a = .ok (g a)) : l.mapM f = .ok (l.map g) := by
  induction l with
  | nil => rfl
  | cons a l ih =>
    rw [List.mapM_cons, h a (List.mem_cons_self _ _),
        ih (fun b hb => h b (List.mem_cons_of_mem _ hb))]
    rfl

theorem begin_value_first_row (hf : HFmt) (loc : Loc) (ind : ℤ)
    (hb : loc.loc_in_table = some LocTable.body)
    (hric : loc.num_of_runs_in_cell ≤ 0)
    (hnrg : 0 < loc.num_of_runs_in_group)
    (hrun : loc.n_run = 0) :
    ∃ tag fattrs, HTML_begin_value hf loc ind
        = (some (indentStr ind ++ tagOpening tag fattrs), ind + 1) ∧
      ("rowspan", toString loc.num_of_runs_in_group) ∈ fattrs := by
  have hskip : ¬(loc.num_of_runs_in_cell ≤ 0 ∧ loc.num_of_runs_in_group > 0 ∧
      loc.n_run ≠ 0) := by
    simp [hrun]
  have hhdr : ¬(loc.loc_in_table = some LocTable.hdr ∧ hf.chd loc.col_name = true) := by
    simp [hb]
  rw [HTML_begin_value]
  simp only [if_neg hskip, if_neg hhdr, if_pos (And.intro hric hnrg)]
  refine ⟨_, _, rfl, ?_⟩
  have hrow : ("rowspan", toString loc.num_of_runs_in_group)
      ∈ dictSet ([] : List (String × String)) "rowspan"
          (toString loc.num_of_runs_in_group) := by
    simp [dictSet]
  by_cases hchd : hf.chd loc.col_name = true
  · rw [if_pos hchd]
    exact mem_tagFinalAttributes _ _ _ _
      (mem_dictSet_of_ne _ _ _ _ _ hrow (by simp)) (by simp)
  · rw [if_neg hchd]
    exact mem_tagFinalAttributes _ _ _ _ hrow (by simp)

theorem process_value_first_row (hf : HFmt) (loc : Loc) (ind : ℤ)
    (hrun : ¬ loc.n_run > 0) :
    ∃ p, HTML_process_value hf loc ind = some p := by
  rw [HTML_process_value]
  rw [if_neg (fun hc => hrun hc.2.2)]
  exact ⟨_, rfl⟩

theorem end_value_first_row (loc : Loc) (ind : ℤ) (hrun : ¬ loc.n_run > 0) :
    ∃ e, HTML_end_value loc ind = (some e, ind - 1) := by
  rw [HTML_end_value]
  rw [if_neg (fun hc => hrun hc.2.2)]
  exact ⟨_, rfl⟩

theorem value_cell_skip (hf : HFmt) (loc : Loc) (ind : ℤ)
    (hric : loc.num_of_runs_in_cell ≤ 0)
    (hnrg : 0 < loc.num_of_runs_in_group)
    (hrun : 0 < loc.n_run) :
    valueCellWalk hf loc ind = ((none, none, none), ind) := by
  rw [valueCellWalk, HTML_begin_value, HTML_process_value, HTML_end_value]
  rw [if_pos (And.intro hric (And.intro hnrg (by omega)))]
  simp only
  rw [if_pos (And.intro hric (And.intro hnrg hrun)),
      if_pos (And.intro hric (And.intro hnrg hrun))]

theorem bodyCellLoc_scalar (g : Record) (k : String) (v : PyVal)
    (n_group n_col runsInGroup : ℤ) (r : ℕ)
    (hcell : Record.lookup g k = some v) (hscalar : ricOf v = -1) :
    bodyCellLoc g k n_group r n_col runsInGroup =
      .ok { loc_in_table := some .body, n_group := n_group, n_col := n_col,
            col_name := k, n_run := (r : ℤ), num_of_runs_in_group := runsInGroup,
            num_of_runs_in_cell := -1,
            value := (cellValDelta v).1, delta := (cellValDelta v).2 } := by
  rw [bodyCellLoc, hcell]
  simp only [hscalar]
  rw [if_neg (by norm_num)]

/-- C9.  In the body walk, a key that resolves to a scalar (non-list) value
inside a group with more than one run-slot is emitted exactly once: the
first run row's `begin_value` produces a cell whose attributes carry
`rowspan` equal to the group's number of run-slots (with `process_value` and
`end_value` emitting the cell body and closing tag), and on every subsequent
run row all three value hooks emit nothing. -/
theorem html_rowspan_collapse (hf : HFmt) (g : Record) (k : String) (v : PyVal)
    (n_group n_col ind : ℤ)
    (hcell : Record.lookup g k = some v)
    (hscalar : ricOf v = -1)
    (hR : 1 < numRunsInGroup g) :
    ∃ cells, walkValueCells hf g k n_group n_col ind = .ok cells ∧
      cells.length = (numRunsInGroup g).toNat ∧
      (∃ tag fattrs,
        (∃ p e, cells.get? 0
          = some (some (indentStr ind ++ tagOpening tag fattrs), some p, some e)) ∧
        ("rowspan", toString (numRunsInGroup g)) ∈ fattrs) ∧
      (∀ i : ℕ, 1 ≤ i → i < (numRunsInGroup g).toNat →
        cells.get? i = some (none, none, none)) := by
  have hR0 : (0 : ℤ) < numRunsInGroup g := by omega
  have hloc := fun r => bodyCellLoc_scalar g k v n_group n_col (numRunsInGroup g) r
    hcell hscalar
  have hmap : walkValueCells hf g k n_group n_col ind
      = .ok ((List.range (numRunsInGroup g).toNat).map (fun (r : ℕ) =>
          (valueCellWalk hf
            { loc_in_table := some .body, n_group := n_group, n_col := n_col,
              col_name := k, n_run := (r : ℤ),
              num_of_runs_in_group := numRunsInGroup g,
              num_of_runs_in_cell := -1,
              value := (cellValDelta v).1, delta := (cellValDelta v).2 } ind).1)) := by
    rw [walkValueCells]
    exact list_mapM_ok _ _ _ (fun r _ => by rw [hloc r]; rfl)
  refine ⟨_, hmap, by simp, ?_, ?_⟩
  · obtain ⟨tag, fattrs, hb, hmem⟩ := begin_value_first_row hf
      { loc_in_table := some .body, n_group := n_group, n_col := n_col,
        col_name := k, n_run := ((0 : ℕ) : ℤ),
        num_of_runs_in_group := numRunsInGroup g,
        num_of_runs_in_cell := -1,
        value := (cellValDelta v).1, delta := (cellValDelta v).2 } ind
      rfl (by norm_num) hR0 (by norm_num)
    obtain ⟨p, hp⟩ := process_value_first_row hf
      { loc_in_table := some .body, n_group := n_group, n_col := n_col,
        col_name := k, n_run := ((0 : ℕ) : ℤ),
        num_of_runs_in_group := numRunsInGroup g,
        num_of_runs_in_cell := -1,
        value := (cellValDelta v).1, delta := (cellValDelta v).2 } (ind + 1)
      (by norm_num)
    obtain ⟨e, he⟩ := end_value_first_row
      { loc_in_table := some .body, n_group := n_group, n_col := n_col,
        col_name := k, n_run := ((0 : ℕ) : ℤ),
        num_of_runs_in_group := numRunsInGroup g,
        num_of_runs_in_cell := -1,
        value := (cellValDelta v).1, delta := (cellValDelta v).2 } (ind + 1)
      (by norm_num)
    refine ⟨tag, fattrs, ⟨p, e, ?_⟩, hmem⟩
    have h0 : (List.range (numRunsInGroup g).toNat).get? 0 = some 0 := by
      rw [List.get?_eq_getElem?, List.getElem?_range (by omega)]
    rw [List.get?_eq_getElem?, List.getElem?_map, ← List.get?_eq_getElem?, h0]
    simp only [Option.map_some']
    rw [valueCellWalk, hb]
    simp only
    rw [hp, he]
  · intro i h1 h2
    have hi : (List.range (numRunsInGroup g).toNat).get? i = some i := by
      rw [List.get?_eq_getElem?, List.getElem?_range h2]
    rw [List.get?_eq_getElem?, List.getElem?_map, ← List.get?_eq_getElem?, hi]
    simp only [Option.map_some']
    rw [value_cell_skip hf _ ind (by norm_num) hR0 (by simp only; omega)]

/-- Witness for C9: a group with a scalar column `x` and a two-run column
`y`, walked with the default formatter configuration. -/
theorem html_rowspan_collapse_witness :
    ∃ cells, walkValueCells ⟨[], [], []⟩
        [("x", vstr "L"), ("y", vlist [vint 1, vint 2])] "x" 0 0 2 = .ok cells ∧
      cells.length = (numRunsInGroup
        [("x", vstr "L"), ("y", vlist [vint 1, vint 2])]).toNat ∧
      (∃ tag fattrs,
        (∃ p e, cells.get? 0
          = some (some (indentStr 2 ++ tagOpening tag fattrs), some p, some e)) ∧
        ("rowspan", toString (numRunsInGroup
          [("x", vstr "L"), ("y", vlist [vint 1, vint 2])])) ∈ fattrs) ∧
      (∀ i : ℕ, 1 ≤ i → i < (numRunsInGroup
          [("x", vstr "L"), ("y", vlist [vint 1, vint 2])]).toNat →
        cells.get? i = some (none, none, none)) :=
  html_rowspan_collapse ⟨[], [], []⟩
    [("x", vstr "L"), ("y", vlist [vint 1, vint 2])] "x" (vstr "L") 0 0 2
    rfl rfl (by norm_num [numRunsInGroup, ricOf])
